import Mathlib

/-!
# remapPDB: a shallow embedding of `main.cpp`

The program rewrites Windows minidump files in place.  This development
embeds its header reader `getExecutableChecksumAndSize` and its two dump
routines, `cleanupDump` and `fixupDump`, together with the per-file pipeline of
`main`, and proves properties of them.

Modelling conventions

* A file, and the heap buffer `data` it is loaded into, is a `List Nat` of
  bytes.  A 32-bit field is read and written little-endian, as on the x86
  targets of the program.
* Every access through a pointer into `data` is bounds checked: an access that
  leaves the buffer is undefined behaviour in C++ and makes the embedded
  routine return `none`.
* The size of a file is held in a `long`, which has 32 bits on Windows.  A
  file of `2^31` bytes or more has no size a `long` can hold, and
  `new char[fileSize]` fails for it: the routine is left before the file is
  touched.
* The record layouts come from the Windows SDK headers `<DbgHelp.h>` and
  `<Windows.h>` which the program includes; the offsets used are listed at the
  definitions below.
-/

namespace RemapPDB

/-! ## Constants and layouts of the Windows SDK -/

/-- The value of `MINIDUMP_SIGNATURE` (the characters `MDMP` read as a
little-endian 32-bit number). -/
def MINIDUMP_SIGNATURE : Nat := 0x504d444d

/-- The value of `ModuleListStream` in `MINIDUMP_STREAM_TYPE`. -/
def ModuleListStream : Nat := 4

/-- The value of `MAX_PATH`. -/
def MAX_PATH : Nat := 260

/-- The fields of `IMAGE_OPTIONAL_HEADER` that `fixupDump` reads, as 32-bit
values. -/
structure IMAGE_OPTIONAL_HEADER where
  SizeOfImage : Nat
  CheckSum : Nat
deriving Repr, DecidableEq

/-- What the C runtime and the operating system answer to the calls the dump
routines make: whether `fopen(path, "rb")` and `fopen(path, "wb")` succeed, and
the wide string `GetCurrentDirectoryW` yields (without its terminator). -/
structure FileSys where
  canRead : Bool
  canWrite : Bool
  cwd : List Nat
deriving Repr, DecidableEq

/-! ## Byte buffers -/

/-- Read of a 32-bit little-endian field at byte offset `off`; `none` when one
of the four bytes lies outside the buffer. -/
def read32 (data : List Nat) (off : Nat) : Option Nat :=
  match data[off]?, data[off + 1]?, data[off + 2]?, data[off + 3]? with
  | some b0, some b1, some b2, some b3 =>
      some (b0 + 256 * b1 + 65536 * b2 + 16777216 * b3)
  | _, _, _, _ => none

/-- Write of the 32-bit value `v` (its low 32 bits) at byte offset `off`;
`none` when the four bytes do not lie inside the buffer. -/
def write32 (data : List Nat) (off v : Nat) : Option (List Nat) :=
  if off + 4 ≤ data.length then
    some ((((data.set off (v % 256)).set (off + 1) (v / 256 % 256)).set
      (off + 2) (v / 65536 % 256)).set (off + 3) (v / 16777216 % 256))
  else none

/-- The four bytes `fwrite(&v, sizeof(ULONG32), 1, fp)` emits. -/
def le32 (v : Nat) : List Nat :=
  [v % 256, v / 256 % 256, v / 65536 % 256, v / 16777216 % 256]

/-- The bytes a wide string occupies in a binary stream: two per `wchar_t`,
low byte first. -/
def wideBytes : List Nat → List Nat
  | [] => []
  | w :: ws => (w % 256) :: (w / 256 % 256) :: wideBytes ws

/-- The cast `(int)x` of a 32-bit unsigned value. -/
def toInt32 (x : Nat) : Int :=
  if x % 4294967296 < 2147483648 then (x % 4294967296 : Nat)
  else ((x % 4294967296 : Nat) : Int) - 4294967296

/-! ## `cleanupDump` -/

/-- Embedding of `cleanupDump(_path)`: `file` is the content of the file at
`_path`, the result is the content the routine leaves in it, `none` when its
behaviour is undefined.  The routine does not test the results of its two
`fopen` calls, so a failed one is a fault.

`const long fileSize` holds the length only of a file of less than `2^31`
bytes.  For a longer file `new char[fileSize]` fails and the routine is left,
through the exception, before it reads or writes anything: the file keeps its
content.

Offsets: `MINIDUMP_HEADER::Signature` is at byte 0 of the header. -/
def cleanupDump (fs : FileSys) (file : List Nat) : Option (List Nat) :=
  if fs.canRead = false then none else
  -- `new char[fileSize]` with a length that does not fit the `long`
  if 2147483648 ≤ file.length then some file else
  -- `data` holds the `fileSize` bytes of the file
  let data := file
  match read32 data 0 with
  | none => none
  | some sig0 =>
    if sig0 = MINIDUMP_SIGNATURE then some file else
    match read32 data 8 with
    | none => none
    | some sig8 =>
      if sig8 ≠ MINIDUMP_SIGNATURE then some file else
      if fs.canWrite = false then none else
      -- `fwrite(data + 8, fileSize - 8, 1, fp)` into the truncated file
      some ((data.drop 8).take (data.length - 8))

/-! ## `fixupDump` -/

/-- The four stores of the loop body of `fixupDump` into
`moduleList->Modules[0]`, in source order, where `rva` is
`directory[ii].Location.Rva`.

Offsets: `MINIDUMP_MODULE_LIST::Modules` is at byte 4 of the list;
in `MINIDUMP_MODULE`, `SizeOfImage` is at byte 8, `CheckSum` at 12,
`TimeDateStamp` at 16 and `ModuleNameRva` at 20. -/
def patchModule (fileSize ts : Nat) (hdr : IMAGE_OPTIONAL_HEADER) (rva : Nat)
    (data : List Nat) : Option (List Nat) :=
  match write32 data (rva + 4 + 20) fileSize with
  | none => none
  | some d1 =>
    match write32 d1 (rva + 4 + 12) hdr.CheckSum with
    | none => none
    | some d2 =>
      match write32 d2 (rva + 4 + 8) hdr.SizeOfImage with
      | none => none
      | some d3 => write32 d3 (rva + 4 + 16) ts

/-- The `for` loop of `fixupDump`, entered with loop counter `ii` and buffer
`data`; `dir` is `header->StreamDirectoryRva` as read before the loop.  The
bound `header->NumberOfStreams` is read from the buffer at every test.

`fuel` bounds the number of loop tests; an `int` counter that starts at 0
passes at most `2^31` tests, which is the budget `fixupDump` gives.

Offsets: `MINIDUMP_HEADER::NumberOfStreams` is at byte 8;
`sizeof(MINIDUMP_DIRECTORY)` is 12, with `StreamType` at byte 0 and
`Location.Rva` at byte 8. -/
def fixupLoop (fileSize ts : Nat) (hdr : IMAGE_OPTIONAL_HEADER) (dir : Nat) :
    Nat → Nat → List Nat → Option (List Nat)
  | 0, _, _ => none
  | fuel + 1, ii, data =>
    match read32 data 8 with
    | none => none
    | some numberOfStreams =>
      if (ii : Int) < toInt32 numberOfStreams then
        match read32 data (dir + 12 * ii) with
        | none => none
        | some streamType =>
          if streamType = ModuleListStream then
            match read32 data (dir + 12 * ii + 8) with
            | none => none
            | some rva =>
              match patchModule fileSize ts hdr rva data with
              | none => none
              | some data1 => fixupLoop fileSize ts hdr dir fuel (ii + 1) data1
          else fixupLoop fileSize ts hdr dir fuel (ii + 1) data
      else some data

/-- The bytes `fixupDump` appends after the buffer: the 32-bit `newSize`, the
output of `fwprintf(fp, L"%s%S", fullPath, _executablePath)` on a binary
stream, and the byte of `fputc(0, fp)`.  `fullPath` is the current directory
followed by a backslash; `exe` holds the characters of `_executablePath`,
which `%S` widens one by one (the program never leaves the "C" locale). -/
def pathRecord (cwd exe : List Nat) : List Nat :=
  let fullPath := cwd ++ [0x5C]
  let newSize := exe.length * 2 + fullPath.length
  le32 newSize ++ (wideBytes fullPath ++ wideBytes exe) ++ [0]

/-- Embedding of `fixupDump(_dumpPath, _timeStamp, _header, _executablePath)`:
`file` is the content of the file at `_dumpPath`; the result is the returned
`bool` and the content of the file afterwards, `none` when the routine returns
no `bool`.

`const long fileSize` holds the length only of a file of less than `2^31`
bytes.  For a longer file `new char[fileSize]` fails and the routine returns
nothing.

Offsets in `MINIDUMP_HEADER`: `Signature` at byte 0, `StreamDirectoryRva` at
byte 12, `CheckSum` at byte 16. -/
def fixupDump (fs : FileSys) (file : List Nat) (ts : Nat)
    (hdr : IMAGE_OPTIONAL_HEADER) (exe : List Nat) : Option (Bool × List Nat) :=
  if fs.canRead = false then some (false, file) else
  -- `new char[fileSize]` with a length that does not fit the `long`
  if 2147483648 ≤ file.length then none else
  let fileSize := file.length
  -- header->CheckSum = 0
  match write32 file 16 0 with
  | none => none
  | some data =>
    match read32 data 0 with
    | none => none
    | some sig =>
      if sig ≠ MINIDUMP_SIGNATURE then some (false, file) else
      match read32 data 12 with
      | none => none
      | some dir =>
        match fixupLoop fileSize ts hdr dir 2147483648 0 data with
        | none => none
        | some data1 =>
          if fs.canWrite = false then some (false, file) else
          -- `fullPath` has room for MAX_PATH wide characters, terminator included
          if MAX_PATH < fs.cwd.length + 2 then none else
          some (true, data1 ++ pathRecord fs.cwd exe)

/-! ## The per-file pipeline of `main` -/

/-- The body of the `do` loop of `main` for one dump: `cleanupDump` followed by
`fixupDump` on what it left in the file. -/
def processDump (fs : FileSys) (file : List Nat) (ts : Nat)
    (hdr : IMAGE_OPTIONAL_HEADER) (exe : List Nat) : Option (Bool × List Nat) :=
  match cleanupDump fs file with
  | none => none
  | some file1 => fixupDump fs file1 ts hdr exe

/-! ## Vocabulary of the statements -/

/-- Entry `i` of the stream directory at offset `dir` of `data` is tagged
`ModuleListStream` and its `Location.Rva` is `rva`. -/
def IsModuleListEntry (data : List Nat) (dir i rva : Nat) : Prop :=
  read32 data (dir + 12 * i) = some ModuleListStream ∧
  read32 data (dir + 12 * i + 8) = some rva

/-- In `data`, the first module record of the module list at `rva` holds the
given values in the four fields `fixupDump` stores to: `SizeOfImage` (byte 12
of the list), `CheckSum` (byte 16), `TimeDateStamp` (byte 20) and
`ModuleNameRva` (byte 24). -/
def ModulePatched (sizeOfImage checkSum timeDateStamp moduleNameRva rva : Nat)
    (data : List Nat) : Prop :=
  read32 data (rva + 12) = some sizeOfImage ∧
  read32 data (rva + 16) = some checkSum ∧
  read32 data (rva + 20) = some timeDateStamp ∧
  read32 data (rva + 24) = some moduleNameRva

/-- The buffer `data` has the length of `D` and agrees with it on the first 12
bytes (signature, version, stream count) and on the `ns` directory entries at
offset `dir`. -/
def SameView (dir ns : Nat) (D data : List Nat) : Prop :=
  data.length = D.length ∧
  ∀ k, k < 12 ∨ (dir ≤ k ∧ k < dir + 12 * ns) → data[k]? = D[k]?

/-! ## Sample inputs -/

/-- A 32-byte `MINIDUMP_HEADER` with the valid signature, the given stream
count and directory offset (both below 256) and a non-zero checksum. -/
def sampleHeader (numberOfStreams dir : Nat) : List Nat :=
  [0x4D, 0x44, 0x4D, 0x50, 0x93, 0xA7, 0, 0, numberOfStreams, 0, 0, 0, dir, 0, 0, 0,
   0xEF, 0xBE, 0xAD, 0xDE, 0, 0, 0, 0, 0, 0, 0, 0, 0, 0, 0, 0]

/-- A 12-byte `MINIDUMP_DIRECTORY` entry with small field values. -/
def sampleEntry (streamType rva : Nat) : List Nat :=
  [streamType, 0, 0, 0, 0, 0, 0, 0, rva, 0, 0, 0]

/-- A file system in which both opens succeed and the current directory is
`C:\d`. -/
def sampleFs : FileSys := { canRead := true, canWrite := true, cwd := [0x43, 0x3A, 0x5C, 0x64] }

/-- An optional header with distinct checksum and image size. -/
def sampleHdr : IMAGE_OPTIONAL_HEADER := { SizeOfImage := 0x11223344, CheckSum := 0x55667788 }

/-- A dump with one module-list stream at offset 44. -/
def sampleDump : List Nat :=
  sampleHeader 1 32 ++ sampleEntry 4 44 ++ List.replicate 28 0xAA

/-- A dump whose two module-list streams, at offsets 56 and 60, overlap. -/
def overlapDump : List Nat :=
  sampleHeader 2 32 ++ sampleEntry 4 56 ++ sampleEntry 4 60 ++ List.replicate 32 0xAA

/-- The timestamp used in the sample runs. -/
def sampleTs : Nat := 0x99AABBCC

/-- The executable path `a.` used in the sample runs. -/
def sampleExe : List Nat := [0x61, 0x2E]

/-- The file `fixupDump` writes for `sampleDump`. -/
def sampleWritten : List Nat :=
  [77, 68, 77, 80, 147, 167, 0, 0, 1, 0, 0, 0, 32, 0, 0, 0, 0, 0, 0, 0, 0, 0, 0, 0, 0, 0, 0, 0,
   0, 0, 0, 0, 4, 0, 0, 0, 0, 0, 0, 0, 44, 0, 0, 0, 170, 170, 170, 170, 170, 170, 170, 170, 170,
   170, 170, 170, 68, 51, 34, 17, 136, 119, 102, 85, 204, 187, 170, 153, 72, 0, 0, 0, 9, 0, 0, 0,
   67, 0, 58, 0, 92, 0, 100, 0, 92, 0, 97, 0, 46, 0, 0]

/-- The file `fixupDump` writes for `overlapDump`. -/
def overlapWritten : List Nat :=
  [77, 68, 77, 80, 147, 167, 0, 0, 2, 0, 0, 0, 32, 0, 0, 0, 0, 0, 0, 0, 0, 0, 0, 0, 0, 0, 0, 0,
   0, 0, 0, 0, 4, 0, 0, 0, 0, 0, 0, 0, 56, 0, 0, 0, 4, 0, 0, 0, 0, 0, 0, 0, 60, 0, 0, 0, 170,
   170, 170, 170, 170, 170, 170, 170, 170, 170, 170, 170, 68, 51, 34, 17, 68, 51, 34, 17, 136,
   119, 102, 85, 204, 187, 170, 153, 88, 0, 0, 0, 9, 0, 0, 0, 67, 0, 58, 0, 92, 0, 100, 0, 92,
   0, 97, 0, 46, 0, 0]

/-- A 32-byte dump with the valid signature and one stream, whose directory
offset `0x7FFFFF00` points far behind the end of the file. -/
def strayDump : List Nat :=
  [0x4D, 0x44, 0x4D, 0x50, 0x93, 0xA7, 0, 0, 1, 0, 0, 0, 0x00, 0xFF, 0xFF, 0x7F,
   0xEF, 0xBE, 0xAD, 0xDE, 0, 0, 0, 0, 0, 0, 0, 0, 0, 0, 0, 0]

/-- A file system in which the file can be read but not opened for writing. -/
def readOnlyFs : FileSys := { canRead := true, canWrite := false, cwd := [0x43, 0x3A, 0x5C, 0x64] }

/-- The file `sampleDump` behind eight foreign bytes. -/
def shiftedDump : List Nat := [1, 2, 3, 4, 5, 6, 7, 8] ++ sampleDump

/-- A file of `2^31 + 12` bytes: eight foreign bytes, the signature, and
`2^31` zero bytes. -/
def largeShiftedDump : List Nat :=
  [1, 2, 3, 4, 5, 6, 7, 8, 0x4D, 0x44, 0x4D, 0x50] ++ List.replicate 2147483648 0

/-- A 16-byte file that carries the signature at offset 0 and again at
offset 8. -/
def doubleSigDump : List Nat :=
  [0x4D, 0x44, 0x4D, 0x50, 0, 0, 0, 0, 0x4D, 0x44, 0x4D, 0x50, 0, 0, 0, 0]

/-- The file the pipeline of `main` writes for `sampleWritten`, that is, on its
second run over `sampleDump`. -/
def sampleWrittenTwice : List Nat :=
  [77, 68, 77, 80, 147, 167, 0, 0, 1, 0, 0, 0, 32, 0, 0, 0, 0, 0, 0, 0, 0, 0, 0, 0, 0, 0, 0, 0,
   0, 0, 0, 0, 4, 0, 0, 0, 0, 0, 0, 0, 44, 0, 0, 0, 170, 170, 170, 170, 170, 170, 170, 170, 170,
   170, 170, 170, 68, 51, 34, 17, 136, 119, 102, 85, 204, 187, 170, 153, 91, 0, 0, 0, 9, 0, 0, 0,
   67, 0, 58, 0, 92, 0, 100, 0, 92, 0, 97, 0, 46, 0, 0, 9, 0, 0, 0, 67, 0, 58, 0, 92, 0, 100, 0,
   92, 0, 97, 0, 46, 0, 0]

/-- The number of directory entries the loop of `fixupDump` examines when the
header holds stream count `ns`: the count read as an `int`, none when that is
negative. -/
def walkCount (ns : Nat) : Nat := (toInt32 ns).toNat

/-- A 16-byte file: the signature, a version, stream count 0 and directory
offset 32, and nothing behind them. -/
def truncatedDump : List Nat :=
  [0x4D, 0x44, 0x4D, 0x50, 0x93, 0xA7, 0, 0, 0, 0, 0, 0, 32, 0, 0, 0]

/-- A 32-byte dump with the valid signature and stream count 0. -/
def zeroStreamDump : List Nat := sampleHeader 0 32

/-- The file `fixupDump` writes for `zeroStreamDump`. -/
def zeroStreamWritten : List Nat :=
  [77, 68, 77, 80, 147, 167, 0, 0, 0, 0, 0, 0, 32, 0, 0, 0, 0, 0, 0, 0, 0, 0, 0, 0, 0, 0, 0, 0,
   0, 0, 0, 0, 9, 0, 0, 0, 67, 0, 58, 0, 92, 0, 100, 0, 92, 0, 97, 0, 46, 0, 0]

/-- A 96-byte dump with two directory entries at offset 32: a module list at
offset 32, whose patched fields `[44, 60)` are the second directory entry, and
a stream of type 3 (not a module list) at offset 0. -/
def retagDump : List Nat :=
  sampleHeader 2 32 ++ sampleEntry 4 32 ++ sampleEntry 3 0 ++ List.replicate 40 0xAA

/-- An optional header whose image size has the value of `ModuleListStream`. -/
def retagHdr : IMAGE_OPTIONAL_HEADER := { SizeOfImage := 4, CheckSum := 0x55667788 }

/-- A timestamp with the value 60. -/
def retagTs : Nat := 60

/-- The file `fixupDump` writes for `retagDump` with `retagHdr` and
`retagTs`. -/
def retagWritten : List Nat :=
  [77, 68, 77, 80, 147, 167, 0, 0, 2, 0, 0, 0, 32, 0, 0, 0, 0, 0, 0, 0, 0, 0, 0, 0, 0, 0, 0, 0,
   0, 0, 0, 0, 4, 0, 0, 0, 0, 0, 0, 0, 32, 0, 0, 0, 4, 0, 0, 0, 136, 119, 102, 85, 60, 0, 0, 0,
   96, 0, 0, 0, 170, 170, 170, 170, 170, 170, 170, 170, 170, 170, 170, 170, 4, 0, 0, 0, 136,
   119, 102, 85, 60, 0, 0, 0, 96, 0, 0, 0, 170, 170, 170, 170, 170, 170, 170, 170, 9, 0, 0, 0,
   67, 0, 58, 0, 92, 0, 100, 0, 92, 0, 97, 0, 46, 0, 0]

/-- A 56-byte dump with two directory entries at offset 32: a module list at
offset 28, whose first module record `[28, 56)` ends with the file and whose
patched fields `[40, 56)` reach over the second directory entry, and a stream
of type 3 at offset 0. -/
def strikeDump : List Nat :=
  sampleHeader 2 32 ++ sampleEntry 4 28 ++ sampleEntry 3 0

/-- An optional header whose checksum has the value of `ModuleListStream`. -/
def strikeHdr : IMAGE_OPTIONAL_HEADER := { SizeOfImage := 0x11223344, CheckSum := 4 }

/-- The trace of the loop of `fixupDump`: the directory entries it examines,
in order, when entered with counter `ii` and buffer `data`.  Each examined
index is paired with `some rva` when the entry is tagged `ModuleListStream` and
the loop body stores through `rva`, with `none` otherwise.  The tests, reads
and stores are those of `fixupLoop`, line by line. -/
def fixupVisits (fileSize ts : Nat) (hdr : IMAGE_OPTIONAL_HEADER) (dir : Nat) :
    Nat → Nat → List Nat → List (Nat × Option Nat)
  | 0, _, _ => []
  | fuel + 1, ii, data =>
    match read32 data 8 with
    | none => []
    | some numberOfStreams =>
      if (ii : Int) < toInt32 numberOfStreams then
        match read32 data (dir + 12 * ii) with
        | none => []
        | some streamType =>
          if streamType = ModuleListStream then
            match read32 data (dir + 12 * ii + 8) with
            | none => []
            | some rva =>
              match patchModule fileSize ts hdr rva data with
              | none => [(ii, some rva)]
              | some data1 => (ii, some rva) :: fixupVisits fileSize ts hdr dir fuel (ii + 1) data1
          else (ii, none) :: fixupVisits fileSize ts hdr dir fuel (ii + 1) data
      else []

/-- The trace of the directory walk of a run of `fixupDump` on `file`: the
buffer is the file with `header->CheckSum` cleared, the directory offset is
read from it, and the loop starts at counter 0. -/
def fixupDumpVisits (file : List Nat) (ts : Nat) (hdr : IMAGE_OPTIONAL_HEADER) :
    List (Nat × Option Nat) :=
  match write32 file 16 0 with
  | none => []
  | some data =>
    match read32 data 12 with
    | none => []
    | some dir => fixupVisits file.length ts hdr dir 2147483648 0 data

/-- The stores of a trace done again, in order, on a buffer. -/
def replayVisits (fileSize ts : Nat) (hdr : IMAGE_OPTIONAL_HEADER) :
    List (Nat × Option Nat) → List Nat → Option (List Nat)
  | [], data => some data
  | (_, none) :: rest, data => replayVisits fileSize ts hdr rest data
  | (_, some rva) :: rest, data =>
    match patchModule fileSize ts hdr rva data with
    | none => none
    | some data1 => replayVisits fileSize ts hdr rest data1

/-- A 72-byte dump whose header holds the stream count `0x80000001` and whose
first directory entry is a module list at offset 44. -/
def hugeCountDump : List Nat :=
  [0x4D, 0x44, 0x4D, 0x50, 0x93, 0xA7, 0, 0, 1, 0, 0, 0x80, 32, 0, 0, 0,
   0xEF, 0xBE, 0xAD, 0xDE, 0, 0, 0, 0, 0, 0, 0, 0, 0, 0, 0, 0] ++
  sampleEntry 4 44 ++ List.replicate 28 0xAA

/-- The file `fixupDump` writes for `hugeCountDump`. -/
def hugeCountWritten : List Nat :=
  [77, 68, 77, 80, 147, 167, 0, 0, 1, 0, 0, 128, 32, 0, 0, 0, 0, 0, 0, 0, 0, 0, 0, 0, 0, 0, 0,
   0, 0, 0, 0, 0, 4, 0, 0, 0, 0, 0, 0, 0, 44, 0, 0, 0, 170, 170, 170, 170, 170, 170, 170, 170,
   170, 170, 170, 170, 170, 170, 170, 170, 170, 170, 170, 170, 170, 170, 170, 170, 170, 170,
   170, 170, 9, 0, 0, 0, 67, 0, 58, 0, 92, 0, 100, 0, 92, 0, 97, 0, 46, 0, 0]

/-! ## `getExecutableChecksumAndSize` -/

/-- Read of a 16-bit little-endian field at byte offset `off`. -/
def read16 (data : List Nat) (off : Nat) : Option Nat :=
  match data[off]?, data[off + 1]? with
  | some b0, some b1 => some (b0 + 256 * b1)
  | _, _ => none

/-- The call `fread(buf, size, 1, fp)` with the stream at position `pos`: the
`size` bytes of the one item when the file holds them all, `none` when the
call returns 0. -/
def freadItem (file : List Nat) (pos size : Nat) : Option (List Nat) :=
  if pos + size ≤ file.length then some ((file.drop pos).take size) else none

/-- The position of the stream after `fseek(fp, dosHeader.e_lfanew, SEEK_SET)`,
whose result the routine does not test: `e_lfanew` is a `LONG`; a negative
offset makes the call fail, and the stream is then at `failedSeekPos`, a
position the C runtime determines. -/
def seekTarget (failedSeekPos e_lfanew : Nat) : Nat :=
  if 0 ≤ toInt32 e_lfanew then (toInt32 e_lfanew).toNat else failedSeekPos

/-- Embedding of `getExecutableChecksumAndSize(_path, _timeStamp, _header)`:
`file` is the content of the file at `_path`, `canOpen` tells whether `fopen`
succeeds, `timeStamp0` and `header0` are what `*_timeStamp` and `*_header` hold
at the call; the result is the returned `bool` with what the two hold at the
return, the optional header as its bytes.

`optSize` is `sizeof(IMAGE_OPTIONAL_HEADER)`, 224 in a 32-bit build and 240 in
a 64-bit build; `sizeof(IMAGE_NT_HEADERS)` is `24 + optSize`.

Offsets: `IMAGE_DOS_HEADER` has 64 bytes, `e_magic` at byte 0 and `e_lfanew`
at byte 60; in `IMAGE_NT_HEADERS`, `Signature` is at byte 0,
`FileHeader.TimeDateStamp` at byte 8, `FileHeader.SizeOfOptionalHeader` (16
bits) at byte 20 and `OptionalHeader` at byte 24. -/
def getExecutableChecksumAndSize (optSize : Nat) (canOpen : Bool) (failedSeekPos : Nat)
    (file : List Nat) (timeStamp0 : Nat) (header0 : List Nat) : Bool × Nat × List Nat :=
  if canOpen = false then (false, timeStamp0, header0) else
  match freadItem file 0 64 with
  | none => (false, timeStamp0, header0)
  | some dosHeader =>
    match read16 dosHeader 0, read32 dosHeader 60 with
    | some e_magic, some e_lfanew =>
      if e_magic ≠ 0x5A4D then (false, timeStamp0, header0) else
      match freadItem file (seekTarget failedSeekPos e_lfanew) (24 + optSize) with
      | none => (false, timeStamp0, header0)
      | some ntHeader =>
        -- memcmp(&ntHeader.Signature, "PE\0\0", 4)
        if ntHeader.take 4 ≠ [0x50, 0x45, 0, 0] then (false, timeStamp0, header0) else
        match read16 ntHeader 20, read32 ntHeader 8 with
        | some sizeOfOptionalHeader, some timeDateStamp =>
          if sizeOfOptionalHeader < optSize then (false, timeStamp0, header0) else
          (true, timeDateStamp, (ntHeader.drop 24).take optSize)
        | _, _ => (false, timeStamp0, header0)
    | _, _ => (false, timeStamp0, header0)

/-- The two fields of the optional header that `fixupDump` reads, taken from
the bytes of the structure: `SizeOfImage` at byte 56 and `CheckSum` at byte 64,
in the 32-bit and in the 64-bit layout alike. -/
def optionalHeaderFields (bytes : List Nat) : IMAGE_OPTIONAL_HEADER :=
  { SizeOfImage := (read32 bytes 56).getD 0, CheckSum := (read32 bytes 64).getD 0 }

/-- A 312-byte image file: the DOS header with `e_lfanew = 64`, then the
signature, a file header with the timestamp of `sampleTs` and optional header
size 224, and a 224-byte optional header with the image size and checksum of
`sampleHdr`. -/
def sampleImage : List Nat :=
  [0x4D, 0x5A] ++ List.replicate 58 0 ++ [64, 0, 0, 0] ++
  [0x50, 0x45, 0, 0] ++
  [0x4C, 0x01, 1, 0, 0xCC, 0xBB, 0xAA, 0x99, 0, 0, 0, 0, 0, 0, 0, 0, 0xE0, 0, 2, 1] ++
  (List.replicate 56 0 ++ [0x44, 0x33, 0x22, 0x11] ++ [0, 4, 0, 0] ++
    [0x88, 0x77, 0x66, 0x55] ++ List.replicate 156 0)

/-! ## Byte-level lemmas -/

theorem read32_eq_some_of_le (data : List Nat) (off : Nat) (h : off + 4 ≤ data.length) :
    ∃ v, read32 data off = some v := by
  have h0 : off < data.length := by omega
  have h1 : off + 1 < data.length := by omega
  have h2 : off + 2 < data.length := by omega
  have h3 : off + 3 < data.length := by omega
  simp [read32, List.getElem?_eq_getElem, h0, h1, h2, h3]

theorem read32_bound {data : List Nat} {off v : Nat} (h : read32 data off = some v) :
    off + 4 ≤ data.length := by
  unfold read32 at h
  split at h
  · next h0 h1 h2 h3 =>
    have := (List.getElem?_eq_some_iff.mp h3).1
    omega
  · exact absurd h (by simp)

theorem read32_congr {a b : List Nat} {off : Nat}
    (h : ∀ k, off ≤ k → k < off + 4 → a[k]? = b[k]?) : read32 a off = read32 b off := by
  unfold read32
  rw [h off (by omega) (by omega), h (off + 1) (by omega) (by omega),
    h (off + 2) (by omega) (by omega), h (off + 3) (by omega) (by omega)]

theorem write32_eq_some_of_le (data : List Nat) (off v : Nat)
    (h : off + 4 ≤ data.length) : ∃ d, write32 data off v = some d := by
  simp [write32, h]

theorem write32_bound {data d : List Nat} {off v : Nat} (h : write32 data off v = some d) :
    off + 4 ≤ data.length := by
  unfold write32 at h
  split at h
  · assumption
  · exact absurd h (by simp)

theorem write32_length {data d : List Nat} {off v : Nat} (h : write32 data off v = some d) :
    d.length = data.length := by
  unfold write32 at h
  split at h
  · injection h with h; subst h; simp
  · exact absurd h (by simp)

theorem write32_getElem?_outside {data d : List Nat} {off v : Nat}
    (h : write32 data off v = some d) {k : Nat} (hk : k < off ∨ off + 4 ≤ k) :
    d[k]? = data[k]? := by
  unfold write32 at h
  split at h
  · injection h with h; subst h
    rw [List.getElem?_set_ne (by omega), List.getElem?_set_ne (by omega),
      List.getElem?_set_ne (by omega), List.getElem?_set_ne (by omega)]
  · exact absurd h (by simp)

theorem read32_write32_same {data d : List Nat} {off v : Nat}
    (h : write32 data off v = some d) : read32 d off = some (v % 4294967296) := by
  unfold write32 at h
  split at h
  · next hb =>
    injection h with h; subst h
    have e0 : ((((data.set off (v % 256)).set (off + 1) (v / 256 % 256)).set
        (off + 2) (v / 65536 % 256)).set (off + 3) (v / 16777216 % 256))[off]? = some (v % 256) := by
      rw [List.getElem?_set_ne (by omega), List.getElem?_set_ne (by omega),
        List.getElem?_set_ne (by omega), List.getElem?_set_self (by omega)]
    have e1 : ((((data.set off (v % 256)).set (off + 1) (v / 256 % 256)).set
        (off + 2) (v / 65536 % 256)).set (off + 3) (v / 16777216 % 256))[off + 1]?
        = some (v / 256 % 256) := by
      rw [List.getElem?_set_ne (by omega), List.getElem?_set_ne (by omega),
        List.getElem?_set_self (by simp; omega)]
    have e2 : ((((data.set off (v % 256)).set (off + 1) (v / 256 % 256)).set
        (off + 2) (v / 65536 % 256)).set (off + 3) (v / 16777216 % 256))[off + 2]?
        = some (v / 65536 % 256) := by
      rw [List.getElem?_set_ne (by omega), List.getElem?_set_self (by simp; omega)]
    have e3 : ((((data.set off (v % 256)).set (off + 1) (v / 256 % 256)).set
        (off + 2) (v / 65536 % 256)).set (off + 3) (v / 16777216 % 256))[off + 3]?
        = some (v / 16777216 % 256) := by
      rw [List.getElem?_set_self (by simp; omega)]
    unfold read32
    rw [e0, e1, e2, e3]
    simp only [Option.some.injEq]
    omega
  · exact absurd h (by simp)

theorem read32_write32_disjoint {data d : List Nat} {off v : Nat}
    (h : write32 data off v = some d) {o : Nat} (ho : o + 4 ≤ off ∨ off + 4 ≤ o) :
    read32 d o = read32 data o :=
  read32_congr fun k h1 h2 => write32_getElem?_outside h (by omega)

/-! ## The stores into the first module record -/

theorem patchModule_steps {fileSize ts : Nat} {hdr : IMAGE_OPTIONAL_HEADER} {rva : Nat}
    {data d : List Nat} (h : patchModule fileSize ts hdr rva data = some d) :
    ∃ d1 d2 d3, write32 data (rva + 4 + 20) fileSize = some d1 ∧
      write32 d1 (rva + 4 + 12) hdr.CheckSum = some d2 ∧
      write32 d2 (rva + 4 + 8) hdr.SizeOfImage = some d3 ∧
      write32 d3 (rva + 4 + 16) ts = some d := by
  unfold patchModule at h
  split at h
  · exact absurd h (by simp)
  · next d1 h1 =>
    split at h
    · exact absurd h (by simp)
    · next d2 h2 =>
      split at h
      · exact absurd h (by simp)
      · next d3 h3 => exact ⟨d1, d2, d3, h1, h2, h3, h⟩

theorem patchModule_eq_some_of_le (fileSize ts : Nat) (hdr : IMAGE_OPTIONAL_HEADER)
    (rva : Nat) (data : List Nat) (h : rva + 28 ≤ data.length) :
    ∃ d, patchModule fileSize ts hdr rva data = some d := by
  obtain ⟨d1, h1⟩ := write32_eq_some_of_le data (rva + 4 + 20) fileSize (by omega)
  have l1 := write32_length h1
  obtain ⟨d2, h2⟩ := write32_eq_some_of_le d1 (rva + 4 + 12) hdr.CheckSum (by omega)
  have l2 := write32_length h2
  obtain ⟨d3, h3⟩ := write32_eq_some_of_le d2 (rva + 4 + 8) hdr.SizeOfImage (by omega)
  have l3 := write32_length h3
  obtain ⟨d4, h4⟩ := write32_eq_some_of_le d3 (rva + 4 + 16) ts (by omega)
  exact ⟨d4, by simp [patchModule, h1, h2, h3, h4]⟩

theorem patchModule_bound {fileSize ts : Nat} {hdr : IMAGE_OPTIONAL_HEADER} {rva : Nat}
    {data d : List Nat} (h : patchModule fileSize ts hdr rva data = some d) :
    rva + 28 ≤ data.length := by
  obtain ⟨d1, d2, d3, h1, h2, h3, h4⟩ := patchModule_steps h
  have := write32_bound h1
  omega

theorem patchModule_length {fileSize ts : Nat} {hdr : IMAGE_OPTIONAL_HEADER} {rva : Nat}
    {data d : List Nat} (h : patchModule fileSize ts hdr rva data = some d) :
    d.length = data.length := by
  obtain ⟨d1, d2, d3, h1, h2, h3, h4⟩ := patchModule_steps h
  rw [write32_length h4, write32_length h3, write32_length h2, write32_length h1]

/-- The stores change no byte outside `[rva + 12, rva + 28)`. -/
theorem patchModule_getElem?_outside {fileSize ts : Nat} {hdr : IMAGE_OPTIONAL_HEADER}
    {rva : Nat} {data d : List Nat} (h : patchModule fileSize ts hdr rva data = some d)
    {k : Nat} (hk : k < rva + 12 ∨ rva + 28 ≤ k) : d[k]? = data[k]? := by
  obtain ⟨d1, d2, d3, h1, h2, h3, h4⟩ := patchModule_steps h
  rw [write32_getElem?_outside h4 (by omega), write32_getElem?_outside h3 (by omega),
    write32_getElem?_outside h2 (by omega), write32_getElem?_outside h1 (by omega)]

theorem patchModule_read32_outside {fileSize ts : Nat} {hdr : IMAGE_OPTIONAL_HEADER}
    {rva : Nat} {data d : List Nat} (h : patchModule fileSize ts hdr rva data = some d)
    {o : Nat} (ho : o + 4 ≤ rva + 12 ∨ rva + 28 ≤ o) : read32 d o = read32 data o :=
  read32_congr fun k h1 h2 => patchModule_getElem?_outside h (by omega)

/-- After the stores the four fields hold the stored values. -/
theorem patchModule_fields {fileSize ts : Nat} {hdr : IMAGE_OPTIONAL_HEADER} {rva : Nat}
    {data d : List Nat} (h : patchModule fileSize ts hdr rva data = some d) :
    read32 d (rva + 12) = some (hdr.SizeOfImage % 4294967296) ∧
    read32 d (rva + 16) = some (hdr.CheckSum % 4294967296) ∧
    read32 d (rva + 20) = some (ts % 4294967296) ∧
    read32 d (rva + 24) = some (fileSize % 4294967296) := by
  obtain ⟨d1, d2, d3, h1, h2, h3, h4⟩ := patchModule_steps h
  refine ⟨?_, ?_, ?_, ?_⟩
  · rw [read32_write32_disjoint h4 (by omega)]
    exact read32_write32_same h3
  · rw [read32_write32_disjoint h4 (by omega), read32_write32_disjoint h3 (by omega)]
    exact read32_write32_same h2
  · exact read32_write32_same h4
  · rw [read32_write32_disjoint h4 (by omega), read32_write32_disjoint h3 (by omega),
      read32_write32_disjoint h2 (by omega)]
    exact read32_write32_same h1

/-! ## The directory walk -/

theorem toInt32_of_lt {x : Nat} (h : x < 2147483648) : toInt32 x = (x : Int) := by
  unfold toInt32
  have : x % 4294967296 = x := Nat.mod_eq_of_lt (by omega)
  rw [this, if_pos h]

theorem lt_toInt32_iff_of_lt {x : Nat} (h : x < 2147483648) (ii : Nat) :
    (ii : Int) < toInt32 x ↔ ii < x := by
  rw [toInt32_of_lt h]; exact Int.ofNat_lt

theorem toInt32_lt (x : Nat) : toInt32 x < 2147483648 := by
  unfold toInt32
  split <;> omega

/-- One test of the loop, read backwards from a result. -/
theorem fixupLoop_step {fileSize ts : Nat} {hdr : IMAGE_OPTIONAL_HEADER} {dir fuel ii : Nat}
    {data d : List Nat} (h : fixupLoop fileSize ts hdr dir (fuel + 1) ii data = some d) :
    ∃ ns, read32 data 8 = some ns ∧
      ((¬ (ii : Int) < toInt32 ns ∧ d = data) ∨
       ((ii : Int) < toInt32 ns ∧ ∃ ty, read32 data (dir + 12 * ii) = some ty ∧
         ((ty ≠ ModuleListStream ∧ fixupLoop fileSize ts hdr dir fuel (ii + 1) data = some d) ∨
          (ty = ModuleListStream ∧ ∃ rva data1, read32 data (dir + 12 * ii + 8) = some rva ∧
            patchModule fileSize ts hdr rva data = some data1 ∧
            fixupLoop fileSize ts hdr dir fuel (ii + 1) data1 = some d)))) := by
  unfold fixupLoop at h
  split at h
  · exact absurd h (by simp)
  · next ns hns =>
    refine ⟨ns, hns, ?_⟩
    split at h
    · next hlt =>
      right
      refine ⟨hlt, ?_⟩
      split at h
      · exact absurd h (by simp)
      · next ty hty =>
        refine ⟨ty, hty, ?_⟩
        split at h
        · next hmod =>
          right
          refine ⟨hmod, ?_⟩
          split at h
          · exact absurd h (by simp)
          · next rva hrva =>
            split at h
            · exact absurd h (by simp)
            · next data1 hp => exact ⟨rva, data1, hrva, hp, h⟩
        · next hmod => exact Or.inl ⟨hmod, h⟩
    · next hge =>
      left
      injection h with h
      exact ⟨hge, h.symm⟩

theorem fixupLoop_length {fileSize ts : Nat} {hdr : IMAGE_OPTIONAL_HEADER} {dir : Nat} :
    ∀ (fuel ii : Nat) (data d : List Nat),
      fixupLoop fileSize ts hdr dir fuel ii data = some d → d.length = data.length := by
  intro fuel
  induction fuel with
  | zero => intro ii data d h; simp [fixupLoop] at h
  | succ fuel ih =>
    intro ii data d h
    obtain ⟨ns, -, hcase⟩ := fixupLoop_step h
    rcases hcase with ⟨-, rfl⟩ | ⟨-, ty, -, ⟨-, hrec⟩ | ⟨-, rva, data1, -, hp, hrec⟩⟩
    · rfl
    · exact ih _ _ _ hrec
    · rw [ih _ _ _ hrec, patchModule_length hp]

/-- The walk never stores below byte 12: signature, version and stream count
keep their bytes. -/
theorem fixupLoop_low {fileSize ts : Nat} {hdr : IMAGE_OPTIONAL_HEADER} {dir : Nat} :
    ∀ (fuel ii : Nat) (data d : List Nat),
      fixupLoop fileSize ts hdr dir fuel ii data = some d →
      ∀ k, k < 12 → d[k]? = data[k]? := by
  intro fuel
  induction fuel with
  | zero => intro ii data d h; simp [fixupLoop] at h
  | succ fuel ih =>
    intro ii data d h k hk
    obtain ⟨ns, -, hcase⟩ := fixupLoop_step h
    rcases hcase with ⟨-, rfl⟩ | ⟨-, ty, -, ⟨-, hrec⟩ | ⟨-, rva, data1, -, hp, hrec⟩⟩
    · rfl
    · exact ih _ _ _ hrec k hk
    · rw [ih _ _ _ hrec k hk, patchModule_getElem?_outside hp (by omega)]

theorem fixupLoop_succ (fileSize ts : Nat) (hdr : IMAGE_OPTIONAL_HEADER)
    (dir fuel ii : Nat) (data : List Nat) :
    fixupLoop fileSize ts hdr dir (fuel + 1) ii data =
      match read32 data 8 with
      | none => none
      | some numberOfStreams =>
        if (ii : Int) < toInt32 numberOfStreams then
          match read32 data (dir + 12 * ii) with
          | none => none
          | some streamType =>
            if streamType = ModuleListStream then
              match read32 data (dir + 12 * ii + 8) with
              | none => none
              | some rva =>
                match patchModule fileSize ts hdr rva data with
                | none => none
                | some data1 => fixupLoop fileSize ts hdr dir fuel (ii + 1) data1
            else fixupLoop fileSize ts hdr dir fuel (ii + 1) data
        else some data := rfl

/-- The budget `fixupDump` gives the walk is never what ends it: a counter
below `2^31` with a budget that reaches `2^31` gets the same result from any
larger budget. -/
theorem fixupLoop_fuel {fileSize ts : Nat} {hdr : IMAGE_OPTIONAL_HEADER} {dir : Nat} :
    ∀ (fuel ii : Nat) (data : List Nat), ii < 2147483648 → 2147483648 ≤ ii + fuel →
      fixupLoop fileSize ts hdr dir (fuel + 1) ii data =
        fixupLoop fileSize ts hdr dir fuel ii data := by
  intro fuel
  induction fuel with
  | zero => intro ii data h1 h2; omega
  | succ fuel ih =>
    intro ii data h1 h2
    rw [fixupLoop_succ fileSize ts hdr dir (fuel + 1) ii data,
      fixupLoop_succ fileSize ts hdr dir fuel ii data]
    split
    · rfl
    · next ns hns =>
      have hb := toInt32_lt ns
      split
      · next hlt =>
        have h3 : ii + 1 < 2147483648 := by omega
        split
        · rfl
        · split
          · split
            · rfl
            · split
              · rfl
              · exact ih _ _ h3 (by omega)
          · exact ih _ _ h3 (by omega)
      · rfl

theorem SameView.refl (dir ns : Nat) (D : List Nat) : SameView dir ns D D :=
  ⟨rfl, fun _ _ => rfl⟩

theorem SameView.read_count {dir ns : Nat} {D data : List Nat} (h : SameView dir ns D data) :
    read32 data 8 = read32 D 8 :=
  read32_congr fun k _ _ => h.2 k (by omega)

theorem SameView.read_type {dir ns : Nat} {D data : List Nat} (h : SameView dir ns D data)
    {i : Nat} (hi : i < ns) : read32 data (dir + 12 * i) = read32 D (dir + 12 * i) :=
  read32_congr fun k _ _ => h.2 k (by omega)

theorem SameView.read_rva {dir ns : Nat} {D data : List Nat} (h : SameView dir ns D data)
    {i : Nat} (hi : i < ns) : read32 data (dir + 12 * i + 8) = read32 D (dir + 12 * i + 8) :=
  read32_congr fun k _ _ => h.2 k (by omega)

/-- Stores into a module record that lies off the directory keep the view. -/
theorem SameView.patch {dir ns : Nat} {D data data1 : List Nat} (h : SameView dir ns D data)
    {fileSize ts : Nat} {hdr : IMAGE_OPTIONAL_HEADER} {rva : Nat}
    (hp : patchModule fileSize ts hdr rva data = some data1)
    (hoff : rva + 28 ≤ dir ∨ dir + 12 * ns ≤ rva + 12) : SameView dir ns D data1 := by
  refine ⟨by rw [patchModule_length hp, h.1], fun k hk => ?_⟩
  rw [patchModule_getElem?_outside hp (by omega)]
  exact h.2 k hk

/-- When the patched fields of every module-list entry lie off the directory,
the walk leaves the stream count and the directory as it found them. -/
theorem fixupLoop_sameView {fileSize ts : Nat} {hdr : IMAGE_OPTIONAL_HEADER} {dir ns cnt : Nat}
    {D : List Nat} (hns : read32 D 8 = some ns) (hcnt : ∀ ii : Nat, (ii : Int) < toInt32 ns ↔ ii < cnt)
    (hoff : ∀ i r, i < cnt → IsModuleListEntry D dir i r →
      r + 28 ≤ dir ∨ dir + 12 * cnt ≤ r + 12) :
    ∀ (fuel ii : Nat) (data d : List Nat), SameView dir cnt D data →
      fixupLoop fileSize ts hdr dir fuel ii data = some d → SameView dir cnt D d := by
  intro fuel
  induction fuel with
  | zero => intro ii data d _ h; simp [fixupLoop] at h
  | succ fuel ih =>
    intro ii data d hv h
    obtain ⟨ns1, hns1, hcase⟩ := fixupLoop_step h
    rw [hv.read_count, hns] at hns1
    injection hns1 with hns1
    subst hns1
    rw [hcnt] at hcase
    rcases hcase with ⟨-, rfl⟩ | ⟨hii, ty, hty, ⟨-, hrec⟩ | ⟨hmod, rva, data1, hrva, hp, hrec⟩⟩
    · exact hv
    · exact ih _ _ _ hv hrec
    · rw [hv.read_type hii] at hty
      rw [hv.read_rva hii] at hrva
      subst hmod
      exact ih _ _ _ (hv.patch hp (hoff ii rva hii ⟨hty, hrva⟩)) hrec

/-- When moreover the patched fields of two module-list entries never overlap
in part, every module-list entry of the directory ends with its first module
record patched. -/
theorem fixupLoop_patched (fileSize ts : Nat) (hdr : IMAGE_OPTIONAL_HEADER) {dir ns cnt : Nat}
    {D : List Nat} (hns : read32 D 8 = some ns) (hcnt : ∀ ii : Nat, (ii : Int) < toInt32 ns ↔ ii < cnt)
    (hoff : ∀ i r, i < cnt → IsModuleListEntry D dir i r →
      r + 28 ≤ dir ∨ dir + 12 * cnt ≤ r + 12)
    (hpair : ∀ i j r s, i < cnt → j < cnt → IsModuleListEntry D dir i r →
      IsModuleListEntry D dir j s → r = s ∨ r + 16 ≤ s ∨ s + 16 ≤ r) :
    ∀ (fuel ii : Nat) (data d : List Nat), SameView dir cnt D data →
      (∀ j r, j < ii → j < cnt → IsModuleListEntry D dir j r →
        ModulePatched (hdr.SizeOfImage % 4294967296) (hdr.CheckSum % 4294967296)
          (ts % 4294967296) (fileSize % 4294967296) r data) →
      fixupLoop fileSize ts hdr dir fuel ii data = some d →
      ∀ j r, j < cnt → IsModuleListEntry D dir j r →
        ModulePatched (hdr.SizeOfImage % 4294967296) (hdr.CheckSum % 4294967296)
          (ts % 4294967296) (fileSize % 4294967296) r d := by
  intro fuel
  induction fuel with
  | zero => intro ii data d _ _ h; simp [fixupLoop] at h
  | succ fuel ih =>
    intro ii data d hv hdone h
    obtain ⟨ns1, hns1, hcase⟩ := fixupLoop_step h
    rw [hv.read_count, hns] at hns1
    injection hns1 with hns1
    subst hns1
    rw [hcnt] at hcase
    rcases hcase with ⟨hge, rfl⟩ | ⟨hii, ty, hty, ⟨hmod, hrec⟩ | ⟨hmod, rva, data1, hrva, hp, hrec⟩⟩
    · intro j r hj he
      exact hdone j r (by omega) hj he
    · rw [hv.read_type hii] at hty
      refine ih _ _ _ hv (fun j r hj hjn he => ?_) hrec
      rcases Nat.lt_succ_iff_lt_or_eq.mp hj with hj | rfl
      · exact hdone j r hj hjn he
      · rw [he.1] at hty
        injection hty with hty
        exact absurd hty.symm hmod
    · rw [hv.read_type hii] at hty
      rw [hv.read_rva hii] at hrva
      subst hmod
      have hent : IsModuleListEntry D dir ii rva := ⟨hty, hrva⟩
      have hnew : ModulePatched (hdr.SizeOfImage % 4294967296) (hdr.CheckSum % 4294967296)
          (ts % 4294967296) (fileSize % 4294967296) rva data1 := patchModule_fields hp
      refine ih _ _ _ (hv.patch hp (hoff ii rva hii hent)) (fun j r hj hjn he => ?_) hrec
      rcases hpair j ii r rva hjn hii he hent with rfl | hd | hd
      · exact hnew
      · rcases Nat.lt_succ_iff_lt_or_eq.mp hj with hj | rfl
        · obtain ⟨p1, p2, p3, p4⟩ := hdone j r hj hjn he
          exact ⟨by rw [patchModule_read32_outside hp (by omega)]; exact p1,
            by rw [patchModule_read32_outside hp (by omega)]; exact p2,
            by rw [patchModule_read32_outside hp (by omega)]; exact p3,
            by rw [patchModule_read32_outside hp (by omega)]; exact p4⟩
        · rw [he.2] at hrva
          injection hrva with hrva
          omega
      · rcases Nat.lt_succ_iff_lt_or_eq.mp hj with hj | rfl
        · obtain ⟨p1, p2, p3, p4⟩ := hdone j r hj hjn he
          exact ⟨by rw [patchModule_read32_outside hp (by omega)]; exact p1,
            by rw [patchModule_read32_outside hp (by omega)]; exact p2,
            by rw [patchModule_read32_outside hp (by omega)]; exact p3,
            by rw [patchModule_read32_outside hp (by omega)]; exact p4⟩
        · rw [he.2] at hrva
          injection hrva with hrva
          omega

/-- When the directory and the module records it names lie inside the buffer,
and the patched fields lie off the directory, the walk runs to its end. -/
theorem fixupLoop_total (fileSize ts : Nat) (hdr : IMAGE_OPTIONAL_HEADER) {dir ns cnt : Nat}
    {D : List Nat} (hns : read32 D 8 = some ns) (hcnt : ∀ ii : Nat, (ii : Int) < toInt32 ns ↔ ii < cnt)
    (hdir : dir + 12 * cnt ≤ D.length)
    (hmod : ∀ i r, i < cnt → IsModuleListEntry D dir i r → r + 28 ≤ D.length)
    (hoff : ∀ i r, i < cnt → IsModuleListEntry D dir i r →
      r + 28 ≤ dir ∨ dir + 12 * cnt ≤ r + 12) :
    ∀ (fuel ii : Nat) (data : List Nat), ii ≤ cnt → cnt < ii + fuel → SameView dir cnt D data →
      ∃ d, fixupLoop fileSize ts hdr dir fuel ii data = some d := by
  intro fuel
  induction fuel with
  | zero => intro ii data h1 h2; omega
  | succ fuel ih =>
    intro ii data hle hfuel hv
    have hcount : read32 data 8 = some ns := by rw [hv.read_count, hns]
    by_cases hii : ii < cnt
    · have hlt1 : (ii : Int) < toInt32 ns := (hcnt ii).mpr hii
      obtain ⟨ty, hty⟩ := read32_eq_some_of_le data (dir + 12 * ii)
        (by rw [hv.1]; omega)
      obtain ⟨rva, hrva⟩ := read32_eq_some_of_le data (dir + 12 * ii + 8)
        (by rw [hv.1]; omega)
      by_cases hm : ty = ModuleListStream
      · subst hm
        have hent : IsModuleListEntry D dir ii rva :=
          ⟨by rw [← hv.read_type hii]; exact hty, by rw [← hv.read_rva hii]; exact hrva⟩
        obtain ⟨data1, hp⟩ := patchModule_eq_some_of_le fileSize ts hdr rva data
          (by rw [hv.1]; exact hmod ii rva hii hent)
        obtain ⟨d, hd⟩ := ih (ii + 1) data1 (by omega) (by omega)
          (hv.patch hp (hoff ii rva hii hent))
        exact ⟨d, by simp only [fixupLoop, hcount, if_pos hlt1, hty, if_true, hrva, hp, hd]⟩
      · obtain ⟨d, hd⟩ := ih (ii + 1) data (by omega) (by omega) hv
        exact ⟨d, by simp only [fixupLoop, hcount, if_pos hlt1, hty, if_neg hm, hd]⟩
    · have hge : ¬ (ii : Int) < toInt32 ns := fun h => hii ((hcnt ii).mp h)
      exact ⟨data, by simp only [fixupLoop, hcount, if_neg hge]⟩

/-! ## The appended path record -/

theorem read32_append_left {a : List Nat} {o v : Nat} (t : List Nat)
    (h : read32 a o = some v) : read32 (a ++ t) o = some v := by
  have hb := read32_bound h
  rw [← h]
  exact read32_congr fun k _ _ => List.getElem?_append_left (by omega)

theorem read32_append_right (a b : List Nat) (o : Nat) :
    read32 (a ++ b) (a.length + o) = read32 b o := by
  unfold read32
  rw [List.getElem?_append_right (by omega), List.getElem?_append_right (by omega),
    List.getElem?_append_right (by omega), List.getElem?_append_right (by omega)]
  have e0 : a.length + o - a.length = o := by omega
  have e1 : a.length + o + 1 - a.length = o + 1 := by omega
  have e2 : a.length + o + 2 - a.length = o + 2 := by omega
  have e3 : a.length + o + 3 - a.length = o + 3 := by omega
  rw [e0, e1, e2, e3]

theorem read32_le32 (v : Nat) (t : List Nat) : read32 (le32 v ++ t) 0 = some (v % 4294967296) := by
  simp only [read32, le32, List.cons_append, List.getElem?_cons_zero, List.getElem?_cons_succ,
    Nat.zero_add, List.nil_append, Option.some.injEq]
  omega

theorem wideBytes_length (ws : List Nat) : (wideBytes ws).length = 2 * ws.length := by
  induction ws with
  | nil => rfl
  | cons w ws ih => simp only [wideBytes, List.length_cons, ih]; omega

theorem wideBytes_append (a b : List Nat) : wideBytes (a ++ b) = wideBytes a ++ wideBytes b := by
  induction a with
  | nil => rfl
  | cons w ws ih =>
    show w % 256 :: w / 256 % 256 :: wideBytes (ws ++ b) = _
    rw [ih]; rfl

theorem pathRecord_length (cwd exe : List Nat) :
    (pathRecord cwd exe).length = 4 + 2 * ((cwd.length + 1) + exe.length) + 1 := by
  simp only [pathRecord, le32, List.length_append, List.length_cons, List.length_nil,
    wideBytes_length]
  omega

/-! ## Reading a run of `fixupDump` backwards -/

/-- What a successful run has gone through. -/
theorem fixupDump_success {fs : FileSys} {file : List Nat} {ts : Nat}
    {hdr : IMAGE_OPTIONAL_HEADER} {exe W : List Nat}
    (h : fixupDump fs file ts hdr exe = some (true, W)) :
    fs.canRead = true ∧ fs.canWrite = true ∧ fs.cwd.length + 2 ≤ MAX_PATH ∧
    ∃ data dir data1, write32 file 16 0 = some data ∧
      read32 data 0 = some MINIDUMP_SIGNATURE ∧ read32 data 12 = some dir ∧
      fixupLoop file.length ts hdr dir 2147483648 0 data = some data1 ∧
      W = data1 ++ pathRecord fs.cwd exe := by
  unfold fixupDump at h
  split at h
  · simp at h
  · next hr =>
    by_cases hbig : 2147483648 ≤ file.length
    · rw [if_pos hbig] at h
      simp at h
    rw [if_neg hbig] at h
    simp only at h
    split at h
    · simp at h
    · next data hdata =>
      split at h
      · simp at h
      · next sig hsig =>
        split at h
        · simp at h
        · next hsigeq =>
          split at h
          · simp at h
          · next dir hdir =>
            split at h
            · simp at h
            · next data1 hloop =>
              split at h
              · simp at h
              · next hw =>
                split at h
                · simp at h
                · next hcwd =>
                  simp only [Option.some.injEq, Prod.mk.injEq, true_and] at h
                  simp only [ne_eq, Decidable.not_not] at hsigeq
                  subst hsigeq
                  exact ⟨by simpa using hr, by simpa using hw, by omega,
                    data, dir, data1, hdata, hsig, hdir, hloop, h.symm⟩

/-- A run that can be assembled from its steps succeeds. -/
theorem fixupDump_eq_success {fs : FileSys} {file : List Nat} {ts : Nat}
    {hdr : IMAGE_OPTIONAL_HEADER} {exe data data1 : List Nat} {dir : Nat}
    (hr : fs.canRead = true) (hw : fs.canWrite = true) (hcwd : fs.cwd.length + 2 ≤ MAX_PATH)
    (hsize : file.length < 2147483648)
    (hdata : write32 file 16 0 = some data)
    (hsig : read32 data 0 = some MINIDUMP_SIGNATURE) (hdir : read32 data 12 = some dir)
    (hloop : fixupLoop file.length ts hdr dir 2147483648 0 data = some data1) :
    fixupDump fs file ts hdr exe = some (true, data1 ++ pathRecord fs.cwd exe) := by
  have hcwd1 : ¬ MAX_PATH < fs.cwd.length + 2 := by omega
  have hsmall : ¬ 2147483648 ≤ file.length := by omega
  simp [fixupDump, hr, hw, hsmall, hdata, hsig, hdir, hloop, hcwd1]

/-- A run that returns `false` leaves the file as it was. -/
theorem fixupDump_failure {fs : FileSys} {file : List Nat} {ts : Nat}
    {hdr : IMAGE_OPTIONAL_HEADER} {exe disk : List Nat}
    (h : fixupDump fs file ts hdr exe = some (false, disk)) : disk = file := by
  unfold fixupDump at h
  split at h
  · simpa using h.symm
  · by_cases hbig : 2147483648 ≤ file.length
    · rw [if_pos hbig] at h
      simp at h
    rw [if_neg hbig] at h
    simp only at h
    split at h
    · simp at h
    · split at h
      · simp at h
      · split at h
        · simpa using h.symm
        · split at h
          · simp at h
          · split at h
            · simp at h
            · split at h
              · simpa using h.symm
              · split at h
                · simp at h
                · simp at h

/-- A run that returns has read a file whose length fits the `long`. -/
theorem fixupDump_some_size {fs : FileSys} {file : List Nat} {ts : Nat}
    {hdr : IMAGE_OPTIONAL_HEADER} {exe : List Nat} {res : Bool × List Nat}
    (hr : fs.canRead = true) (h : fixupDump fs file ts hdr exe = some res) :
    file.length < 2147483648 := by
  by_cases hbig : 2147483648 ≤ file.length
  · simp [fixupDump, hr, hbig] at h
  · omega

/-- Clearing `header->CheckSum` changes no 32-bit field that starts at byte 20
or later, and none that ends by byte 16. -/
theorem read32_clear {file data : List Nat} (h : write32 file 16 0 = some data) {o : Nat}
    (ho : o + 4 ≤ 16 ∨ 20 ≤ o) : read32 data o = read32 file o :=
  read32_write32_disjoint h (by omega)

theorem IsModuleListEntry.clear {file data : List Nat} (h : write32 file 16 0 = some data)
    {dir i r : Nat} (hdir : 20 ≤ dir) :
    IsModuleListEntry data dir i r ↔ IsModuleListEntry file dir i r := by
  unfold IsModuleListEntry
  rw [read32_clear h (by omega), read32_clear h (by omega)]

/-! ## Facts about the sample inputs -/

theorem sampleDump_entry {i r : Nat} (hi : i < 1) (h : IsModuleListEntry sampleDump 32 i r) :
    r = 44 := by
  obtain rfl : i = 0 := by omega
  have h44 : read32 sampleDump (32 + 12 * 0 + 8) = some 44 := by decide
  have h2 := h.2
  rw [h44] at h2
  injection h2 with h2
  exact h2.symm

/-! ## The rewrite pass: patched fields -/

/-- The buffer the walk returns, seen from a run of `fixupDump` on a file whose
directory lies behind the header and whose patched fields lie off the
directory. -/
theorem fixupDump_view {fs : FileSys} {file : List Nat} {ts : Nat}
    {hdr : IMAGE_OPTIONAL_HEADER} {exe W : List Nat} {ns dir : Nat}
    (hrun : fixupDump fs file ts hdr exe = some (true, W))
    (hns : read32 file 8 = some ns) (hlt : ns < 2147483648)
    (hdir : read32 file 12 = some dir) (h32 : 32 ≤ dir)
    (hoff : ∀ i r, i < ns → IsModuleListEntry file dir i r →
      r + 28 ≤ dir ∨ dir + 12 * ns ≤ r + 12) :
    ∃ data data1, write32 file 16 0 = some data ∧
      fixupLoop file.length ts hdr dir 2147483648 0 data = some data1 ∧
      W = data1 ++ pathRecord fs.cwd exe ∧ read32 data 8 = some ns ∧
      SameView dir ns data data1 := by
  obtain ⟨-, -, -, data, dir1, data1, hdata, -, hdir1, hloop, hW⟩ := fixupDump_success hrun
  rw [read32_clear hdata (by omega), hdir] at hdir1
  injection hdir1 with hdir1
  subst hdir1
  have hns1 : read32 data 8 = some ns := by rw [read32_clear hdata (by omega), hns]
  have hoff1 : ∀ i r, i < ns → IsModuleListEntry data dir i r →
      r + 28 ≤ dir ∨ dir + 12 * ns ≤ r + 12 :=
    fun i r hi he => hoff i r hi ((IsModuleListEntry.clear hdata (by omega)).mp he)
  exact ⟨data, data1, hdata, hloop, hW, hns1,
    fixupLoop_sameView hns1 (lt_toInt32_iff_of_lt hlt) hoff1 _ _ _ _
      (SameView.refl dir ns data) hloop⟩

/-- The first module record of every module-list entry, after a run of
`fixupDump` on a file whose patched fields overlap neither the directory nor,
in part, one another. -/
theorem fixupDump_modulePatched {fs : FileSys} {file : List Nat} {ts : Nat}
    {hdr : IMAGE_OPTIONAL_HEADER} {exe W : List Nat} {ns dir : Nat}
    (hrun : fixupDump fs file ts hdr exe = some (true, W))
    (hns : read32 file 8 = some ns) (hlt : ns < 2147483648)
    (hdir : read32 file 12 = some dir) (h32 : 32 ≤ dir)
    (hoff : ∀ i r, i < ns → IsModuleListEntry file dir i r →
      r + 28 ≤ dir ∨ dir + 12 * ns ≤ r + 12)
    (hpair : ∀ i j r s, i < ns → j < ns → IsModuleListEntry file dir i r →
      IsModuleListEntry file dir j s → r = s ∨ r + 16 ≤ s ∨ s + 16 ≤ r)
    {i r : Nat} (hi : i < ns) (hent : IsModuleListEntry file dir i r) :
    IsModuleListEntry W dir i r ∧
      ModulePatched (hdr.SizeOfImage % 4294967296) (hdr.CheckSum % 4294967296)
        (ts % 4294967296) (file.length % 4294967296) r W := by
  obtain ⟨data, data1, hdata, hloop, hW, hns1, hv⟩ := fixupDump_view hrun hns hlt hdir h32 hoff
  have hclear : ∀ {i r : Nat}, IsModuleListEntry data dir i r ↔ IsModuleListEntry file dir i r :=
    IsModuleListEntry.clear hdata (by omega)
  have hp := fixupLoop_patched file.length ts hdr hns1
    (lt_toInt32_iff_of_lt hlt)
    (fun i r hi he => hoff i r hi (hclear.mp he))
    (fun i j r s hi hj hr hs => hpair i j r s hi hj (hclear.mp hr) (hclear.mp hs))
    _ _ _ _ (SameView.refl dir ns data) (fun j r hj => absurd hj (Nat.not_lt_zero j)) hloop
    i r hi (hclear.mpr hent)
  have hent1 : IsModuleListEntry data1 dir i r := by
    have he := hclear.mpr hent
    exact ⟨by rw [hv.read_type hi]; exact he.1, by rw [hv.read_rva hi]; exact he.2⟩
  subst hW
  exact ⟨⟨read32_append_left _ hent1.1, read32_append_left _ hent1.2⟩,
    read32_append_left _ hp.1, read32_append_left _ hp.2.1, read32_append_left _ hp.2.2.1,
    read32_append_left _ hp.2.2.2⟩

/-- C1, as stated, fails: in `overlapDump` the directory holds two module-list
entries, at offsets 56 and 60, whose first module records overlap.  The rewrite
pass succeeds, the directory of the written file still holds the entry for
offset 56, and the checksum field of its first module record (byte 72) holds
the image size, stored there for the second entry, not the checksum. -/
theorem fixupDump_overlap_checksum :
    fixupDump sampleFs overlapDump sampleTs sampleHdr sampleExe = some (true, overlapWritten) ∧
    IsModuleListEntry overlapDump 32 0 56 ∧ IsModuleListEntry overlapWritten 32 0 56 ∧
    read32 overlapWritten (56 + 16) = some sampleHdr.SizeOfImage ∧
    read32 overlapWritten (56 + 16) ≠ some sampleHdr.CheckSum :=
  ⟨by decide, ⟨by decide, by decide⟩, ⟨by decide, by decide⟩, by decide, by decide⟩

/-- C1 (amended): after a successful rewrite of a dump whose stream count `ns`
is below `2^31`, whose directory lies behind the 32-byte header, and in which
the patched fields `[Rva + 12, Rva + 28)` of the module-list entries overlap
neither the directory nor, unless they coincide, one another, every
module-list entry `i` of the directory is still in the directory of the written
file and its first module record there has checksum, image size and timestamp
equal to the executable's `CheckSum`, `SizeOfImage` and the supplied timestamp
(all three 32-bit values). -/
theorem fixupDump_first_module_fields (fs : FileSys) (file : List Nat) (ts : Nat)
    (hdr : IMAGE_OPTIONAL_HEADER) (exe W : List Nat) (ns dir : Nat)
    (hrun : fixupDump fs file ts hdr exe = some (true, W))
    (hts : ts < 4294967296) (hsz : hdr.SizeOfImage < 4294967296)
    (hck : hdr.CheckSum < 4294967296)
    (hns : read32 file 8 = some ns) (hlt : ns < 2147483648)
    (hdir : read32 file 12 = some dir) (h32 : 32 ≤ dir)
    (hoff : ∀ i r, i < ns → IsModuleListEntry file dir i r →
      r + 28 ≤ dir ∨ dir + 12 * ns ≤ r + 12)
    (hpair : ∀ i j r s, i < ns → j < ns → IsModuleListEntry file dir i r →
      IsModuleListEntry file dir j s → r = s ∨ r + 16 ≤ s ∨ s + 16 ≤ r)
    (i r : Nat) (hi : i < ns) (hent : IsModuleListEntry file dir i r) :
    IsModuleListEntry W dir i r ∧
    read32 W (r + 16) = some hdr.CheckSum ∧
    read32 W (r + 12) = some hdr.SizeOfImage ∧
    read32 W (r + 20) = some ts := by
  obtain ⟨he, h1, h2, h3, -⟩ :=
    fixupDump_modulePatched hrun hns hlt hdir h32 hoff hpair hi hent
  rw [Nat.mod_eq_of_lt hsz] at h1
  rw [Nat.mod_eq_of_lt hck] at h2
  rw [Nat.mod_eq_of_lt hts] at h3
  exact ⟨he, h2, h1, h3⟩

/-- Witness of C1 (amended) on `sampleDump`, whose single module-list entry
names offset 44. -/
theorem fixupDump_first_module_fields_witness :
    fixupDump sampleFs sampleDump sampleTs sampleHdr sampleExe = some (true, sampleWritten) ∧
    IsModuleListEntry sampleDump 32 0 44 ∧
    (IsModuleListEntry sampleWritten 32 0 44 ∧
      read32 sampleWritten (44 + 16) = some sampleHdr.CheckSum ∧
      read32 sampleWritten (44 + 12) = some sampleHdr.SizeOfImage ∧
      read32 sampleWritten (44 + 20) = some sampleTs) :=
  ⟨by decide, ⟨by decide, by decide⟩,
    fixupDump_first_module_fields sampleFs sampleDump sampleTs sampleHdr sampleExe
      sampleWritten 1 32 (by decide) (by decide) (by decide) (by decide) (by decide)
      (by decide) (by decide) (by decide)
      (fun _ r hi he => by have := sampleDump_entry hi he; omega)
      (fun _ _ r s hi hj hr hs => by
        have := sampleDump_entry hi hr; have := sampleDump_entry hj hs; omega)
      0 44 (by decide) ⟨by decide, by decide⟩⟩

/-! ## The rewrite pass: the written file -/

/-- The written file is the buffer, of the length of the file read, followed
by the path record. -/
theorem fixupDump_written {fs : FileSys} {file : List Nat} {ts : Nat}
    {hdr : IMAGE_OPTIONAL_HEADER} {exe W : List Nat}
    (hrun : fixupDump fs file ts hdr exe = some (true, W)) :
    ∃ data dir data1, write32 file 16 0 = some data ∧ read32 data 12 = some dir ∧
      fixupLoop file.length ts hdr dir 2147483648 0 data = some data1 ∧
      data1.length = file.length ∧ W = data1 ++ pathRecord fs.cwd exe := by
  obtain ⟨-, -, -, data, dir, data1, hdata, -, hdir, hloop, hW⟩ := fixupDump_success hrun
  exact ⟨data, dir, data1, hdata, hdir, hloop,
    by rw [fixupLoop_length _ _ _ _ hloop, write32_length hdata], hW⟩

/-- C2, as stated, fails: in the file written for `overlapDump`, the
name-reference offset of the first module record of the module-list entry for
offset 56 (byte 80) holds the timestamp, stored there for the entry for offset
60, not the original length 88. -/
theorem fixupDump_overlap_name_rva :
    fixupDump sampleFs overlapDump sampleTs sampleHdr sampleExe = some (true, overlapWritten) ∧
    overlapDump.length = 88 ∧
    IsModuleListEntry overlapDump 32 0 56 ∧ IsModuleListEntry overlapWritten 32 0 56 ∧
    read32 overlapWritten (56 + 24) = some sampleTs ∧
    read32 overlapWritten (56 + 24) ≠ some 88 :=
  ⟨by decide, by decide, ⟨by decide, by decide⟩, ⟨by decide, by decide⟩, by decide, by decide⟩

/-- C2 (amended): after a successful rewrite of a dump of original length
`n < 2^31` (the length is held in a `long`), whose stream count `ns` is below
`2^31`, whose directory lies behind the 32-byte header, and in which the
patched fields `[Rva + 12, Rva + 28)` of the module-list entries overlap
neither the directory nor, unless they coincide, one another, the
name-reference offset of the first module record of every module-list entry
equals `n` in the written file; and the written file is `n` bytes followed by
the path record, so that `n` is the offset at which the 4-byte length field of
the record begins. -/
theorem fixupDump_name_rva (fs : FileSys) (file : List Nat) (ts : Nat)
    (hdr : IMAGE_OPTIONAL_HEADER) (exe W : List Nat) (ns dir : Nat)
    (hrun : fixupDump fs file ts hdr exe = some (true, W))
    (hlen : file.length < 2147483648)
    (hns : read32 file 8 = some ns) (hlt : ns < 2147483648)
    (hdir : read32 file 12 = some dir) (h32 : 32 ≤ dir)
    (hoff : ∀ i r, i < ns → IsModuleListEntry file dir i r →
      r + 28 ≤ dir ∨ dir + 12 * ns ≤ r + 12)
    (hpair : ∀ i j r s, i < ns → j < ns → IsModuleListEntry file dir i r →
      IsModuleListEntry file dir j s → r = s ∨ r + 16 ≤ s ∨ s + 16 ≤ r)
    (i r : Nat) (hi : i < ns) (hent : IsModuleListEntry file dir i r) :
    read32 W (r + 24) = some file.length ∧
    W = W.take file.length ++ pathRecord fs.cwd exe ∧
    (W.take file.length).length = file.length ∧
    W.drop file.length = le32 (exe.length * 2 + (fs.cwd ++ [0x5C]).length) ++
      (wideBytes (fs.cwd ++ [0x5C]) ++ wideBytes exe) ++ [0] ∧
    read32 W file.length =
      some ((exe.length * 2 + (fs.cwd ++ [0x5C]).length) % 4294967296) := by
  obtain ⟨-, -, -, h4⟩ :=
    (fixupDump_modulePatched hrun hns hlt hdir h32 hoff hpair hi hent).2
  rw [Nat.mod_eq_of_lt (by omega)] at h4
  obtain ⟨data, dir1, data1, -, -, -, hl, hW⟩ := fixupDump_written hrun
  subst hW
  refine ⟨h4, ?_, ?_, ?_, ?_⟩
  · rw [← hl, List.take_left]
  · rw [← hl, List.take_left]
  · rw [← hl, List.drop_left]; rfl
  · have h := read32_append_right data1 (pathRecord fs.cwd exe) 0
    rw [Nat.add_zero, hl] at h
    rw [h]
    exact read32_le32 _ _

/-- Witness of C2 (amended) on `sampleDump`, of length 72, whose single
module-list entry names offset 44. -/
theorem fixupDump_name_rva_witness :
    fixupDump sampleFs sampleDump sampleTs sampleHdr sampleExe = some (true, sampleWritten) ∧
    IsModuleListEntry sampleDump 32 0 44 ∧ sampleDump.length = 72 ∧
    (read32 sampleWritten (44 + 24) = some sampleDump.length ∧
      sampleWritten = sampleWritten.take sampleDump.length ++
        pathRecord sampleFs.cwd sampleExe ∧
      (sampleWritten.take sampleDump.length).length = sampleDump.length ∧
      sampleWritten.drop sampleDump.length =
        le32 (sampleExe.length * 2 + (sampleFs.cwd ++ [0x5C]).length) ++
          (wideBytes (sampleFs.cwd ++ [0x5C]) ++ wideBytes sampleExe) ++ [0] ∧
      read32 sampleWritten sampleDump.length =
        some ((sampleExe.length * 2 + (sampleFs.cwd ++ [0x5C]).length) % 4294967296)) :=
  ⟨by decide, ⟨by decide, by decide⟩, by decide,
    fixupDump_name_rva sampleFs sampleDump sampleTs sampleHdr sampleExe
      sampleWritten 1 32 (by decide) (by decide) (by decide) (by decide) (by decide)
      (by decide)
      (fun _ r hi he => by have := sampleDump_entry hi he; omega)
      (fun _ _ r s hi hj hr hs => by
        have := sampleDump_entry hi hr; have := sampleDump_entry hj hs; omega)
      0 44 (by decide) ⟨by decide, by decide⟩⟩

/-- C3: after a successful rewrite of a file of length `n`, with `dir` the
current directory followed by a backslash and `exe` the executable path, the
written file is the `n` bytes of the patched buffer (the buffer the directory
walk returns), followed by the four little-endian bytes of
`2 * |exe| + |dir|`, by `dir` concatenated with `exe` as wide characters, and
by one zero byte; its length is `n + 4 + 2 * (|dir| + |exe|) + 1`; and, that
value fitting 32 bits as does the length of any command-line argument, the
32-bit field read at offset `n` is `2 * |exe| + |dir|`. -/
theorem fixupDump_appends_path_record (fs : FileSys) (file : List Nat) (ts : Nat)
    (hdr : IMAGE_OPTIONAL_HEADER) (exe W : List Nat)
    (hrun : fixupDump fs file ts hdr exe = some (true, W)) :
    (∃ data dir, write32 file 16 0 = some data ∧ read32 data 12 = some dir ∧
      fixupLoop file.length ts hdr dir 2147483648 0 data = some (W.take file.length)) ∧
    (W.take file.length).length = file.length ∧
    W = W.take file.length ++
      (le32 (exe.length * 2 + (fs.cwd ++ [0x5C]).length) ++
        wideBytes ((fs.cwd ++ [0x5C]) ++ exe) ++ [0]) ∧
    W.length = file.length + 4 + 2 * ((fs.cwd ++ [0x5C]).length + exe.length) + 1 ∧
    (exe.length * 2 + (fs.cwd ++ [0x5C]).length < 4294967296 →
      read32 W file.length = some (exe.length * 2 + (fs.cwd ++ [0x5C]).length)) := by
  obtain ⟨data, dir, data1, hdata, hdir, hloop, hl, hW⟩ := fixupDump_written hrun
  subst hW
  have htake : (data1 ++ pathRecord fs.cwd exe).take file.length = data1 := by
    rw [← hl, List.take_left]
  rw [htake]
  refine ⟨⟨data, dir, hdata, hdir, hloop⟩, hl, ?_, ?_, ?_⟩
  · rw [wideBytes_append]; rfl
  · rw [List.length_append, pathRecord_length, hl]
    simp only [List.length_append, List.length_cons, List.length_nil]
    omega
  · intro hfit
    have h := read32_append_right data1 (pathRecord fs.cwd exe) 0
    rw [Nat.add_zero, hl] at h
    rw [h]
    have h2 := read32_le32 (exe.length * 2 + (fs.cwd ++ [0x5C]).length)
      ((wideBytes (fs.cwd ++ [0x5C]) ++ wideBytes exe) ++ [0])
    rw [Nat.mod_eq_of_lt hfit] at h2
    rw [← h2]
    simp only [pathRecord, List.append_assoc]

/-- Witness of C3 on `sampleDump` (72 bytes), current directory `C:\d` and
executable path `a.`: the record is 19 bytes long and its length field is 9. -/
theorem fixupDump_appends_path_record_witness :
    fixupDump sampleFs sampleDump sampleTs sampleHdr sampleExe = some (true, sampleWritten) ∧
    sampleWritten.drop 72 = [9, 0, 0, 0, 67, 0, 58, 0, 92, 0, 100, 0, 92, 0, 97, 0, 46, 0, 0] ∧
    sampleWritten.length = sampleDump.length + 4 +
      2 * ((sampleFs.cwd ++ [0x5C]).length + sampleExe.length) + 1 :=
  ⟨by decide, by decide,
    (fixupDump_appends_path_record sampleFs sampleDump sampleTs sampleHdr sampleExe
      sampleWritten (by decide)).2.2.2.1⟩

/-- C5: whenever the rewrite pass returns failure, whichever of the three
causes it has, the bytes of the file on disk are those it had before the call;
in particular the cleared container checksum is not written back. -/
theorem fixupDump_failure_keeps_file (fs : FileSys) (file : List Nat) (ts : Nat)
    (hdr : IMAGE_OPTIONAL_HEADER) (exe disk : List Nat)
    (hrun : fixupDump fs file ts hdr exe = some (false, disk)) : disk = file :=
  fixupDump_failure hrun

/-- Witness of C5: with the file not writable, the run on `sampleDump` walks
the directory, fails at the second `fopen` and leaves the file, non-zero
container checksum included, as it was. -/
theorem fixupDump_failure_keeps_file_witness :
    ∃ disk, fixupDump readOnlyFs sampleDump sampleTs sampleHdr sampleExe = some (false, disk) ∧
      disk = sampleDump ∧ read32 disk 16 = some 0xDEADBEEF :=
  ⟨sampleDump, by decide,
    fixupDump_failure_keeps_file readOnlyFs sampleDump sampleTs sampleHdr sampleExe sampleDump
      (by decide), by decide⟩

/-! ## The rewrite pass: when it succeeds -/

/-- A successful run has read the signature at offset 0 of the file. -/
theorem fixupDump_success_signature {fs : FileSys} {file : List Nat} {ts : Nat}
    {hdr : IMAGE_OPTIONAL_HEADER} {exe W : List Nat}
    (hrun : fixupDump fs file ts hdr exe = some (true, W)) :
    read32 file 0 = some MINIDUMP_SIGNATURE := by
  obtain ⟨-, -, -, data, dir, data1, hdata, hsig, -⟩ := fixupDump_success hrun
  rw [← read32_clear hdata (by omega)]
  exact hsig

/-- The written file still starts with the signature. -/
theorem fixupDump_written_signature {fs : FileSys} {file : List Nat} {ts : Nat}
    {hdr : IMAGE_OPTIONAL_HEADER} {exe W : List Nat}
    (hrun : fixupDump fs file ts hdr exe = some (true, W)) :
    read32 W 0 = some MINIDUMP_SIGNATURE := by
  obtain ⟨-, -, -, data, dir, data1, hdata, hsig, -, hloop, hW⟩ := fixupDump_success hrun
  subst hW
  apply read32_append_left
  rw [← hsig]
  exact read32_congr fun k _ _ => fixupLoop_low _ _ _ _ hloop k (by omega)

/-- On a file whose length fits the `long` and that holds its header, its
directory and the module records the directory names, with the patched fields
off the directory, and with both opens succeeding and the current directory
fitting `fullPath`, a run with the signature in place succeeds. -/
theorem fixupDump_succeeds {fs : FileSys} {file : List Nat} (ts : Nat)
    (hdr : IMAGE_OPTIONAL_HEADER) (exe : List Nat) {ns dir : Nat}
    (hr : fs.canRead = true) (hw : fs.canWrite = true)
    (hcwd : fs.cwd.length + 2 ≤ MAX_PATH) (hlen : 32 ≤ file.length)
    (hsize : file.length < 2147483648)
    (hsig : read32 file 0 = some MINIDUMP_SIGNATURE)
    (hns : read32 file 8 = some ns) (hlt : ns < 2147483648)
    (hdir : read32 file 12 = some dir) (h32 : 32 ≤ dir)
    (hin : dir + 12 * ns ≤ file.length)
    (hmod : ∀ i r, i < ns → IsModuleListEntry file dir i r → r + 28 ≤ file.length)
    (hoff : ∀ i r, i < ns → IsModuleListEntry file dir i r →
      r + 28 ≤ dir ∨ dir + 12 * ns ≤ r + 12) :
    ∃ W, fixupDump fs file ts hdr exe = some (true, W) := by
  obtain ⟨data, hdata⟩ := write32_eq_some_of_le file 16 0 (by omega)
  have hl := write32_length hdata
  have hclear : ∀ {i r : Nat}, IsModuleListEntry data dir i r ↔ IsModuleListEntry file dir i r :=
    IsModuleListEntry.clear hdata (by omega)
  have hns1 : read32 data 8 = some ns := by rw [read32_clear hdata (by omega), hns]
  obtain ⟨data1, hloop⟩ := fixupLoop_total file.length ts hdr
    hns1 (lt_toInt32_iff_of_lt hlt) (by rw [hl]; exact hin)
    (fun i r hi he => by rw [hl]; exact hmod i r hi (hclear.mp he))
    (fun i r hi he => hoff i r hi (hclear.mp he))
    2147483648 0 data (Nat.zero_le _) (by omega) (SameView.refl dir ns data)
  exact ⟨_, fixupDump_eq_success hr hw hcwd hsize hdata
    (by rw [read32_clear hdata (by omega), hsig])
    (by rw [read32_clear hdata (by omega), hdir]) hloop⟩

/-- A run on a file of at least 20 bytes, with a length that fits the `long`,
that does not start with the signature returns `false`. -/
theorem fixupDump_rejects {fs : FileSys} {file : List Nat} (ts : Nat)
    (hdr : IMAGE_OPTIONAL_HEADER) (exe : List Nat) (hlen : 20 ≤ file.length)
    (hsize : file.length < 2147483648)
    (hsig : read32 file 0 ≠ some MINIDUMP_SIGNATURE) :
    fixupDump fs file ts hdr exe = some (false, file) := by
  obtain ⟨data, hdata⟩ := write32_eq_some_of_le file 16 0 (by omega)
  obtain ⟨v, hv⟩ := read32_eq_some_of_le file 0 (by omega)
  have hv1 : read32 data 0 = some v := by rw [read32_clear hdata (by omega), hv]
  have hne : v ≠ MINIDUMP_SIGNATURE := fun h => hsig (by rw [hv, h])
  have hsmall : ¬ 2147483648 ≤ file.length := by omega
  unfold fixupDump
  split
  · rfl
  · simp only [hsmall, hdata, hv1, hne, ne_eq, not_false_eq_true, if_true, if_false]

/-- C4, as stated, fails in its converse half: `strayDump` carries the
signature and both opens succeed, but its stream directory lies outside the
32 bytes of the buffer, so the first directory entry the walk reads is not in
the buffer: the run is undefined and reports no success. -/
theorem fixupDump_stray_directory :
    read32 strayDump 0 = some MINIDUMP_SIGNATURE ∧
    sampleFs.canRead = true ∧ sampleFs.canWrite = true ∧
    read32 strayDump 8 = some 1 ∧ read32 strayDump 12 = some 0x7FFFFF00 ∧
    strayDump.length = 32 ∧
    fixupDump sampleFs strayDump sampleTs sampleHdr sampleExe = none ∧
    ¬ ∃ W, fixupDump sampleFs strayDump sampleTs sampleHdr sampleExe = some (true, W) := by
  have h : fixupDump sampleFs strayDump sampleTs sampleHdr sampleExe = none := by decide
  refine ⟨by decide, by decide, by decide, by decide, by decide, by decide, h, ?_⟩
  rintro ⟨W, hW⟩
  rw [h] at hW
  exact absurd hW (by simp)

/-- C4 (amended): the rewrite pass reports success only if the signature at
offset 0 of the loaded dump equals the minidump signature, on every input.
Conversely, when both opens succeed, the current directory with its backslash
and terminator fits the `MAX_PATH` wide characters of `fullPath`, and the file
has fewer than `2^31` bytes (a length the `long fileSize` holds) and holds its
32-byte header, a stream count `ns` below `2^31`, its directory behind the
header, and the first module record `[Rva, Rva + 28)` of every module-list
entry, with the patched fields `[Rva + 12, Rva + 28)` off the directory, then
success holds if and only if the signature matches, and a mismatch makes the
pass return failure. -/
theorem fixupDump_success_iff_signature (fs : FileSys) (file : List Nat) (ts : Nat)
    (hdr : IMAGE_OPTIONAL_HEADER) (exe : List Nat) (ns dir : Nat)
    (hr : fs.canRead = true) (hw : fs.canWrite = true)
    (hcwd : fs.cwd.length + 2 ≤ MAX_PATH) (hlen : 32 ≤ file.length)
    (hsize : file.length < 2147483648)
    (hns : read32 file 8 = some ns) (hlt : ns < 2147483648)
    (hdir : read32 file 12 = some dir) (h32 : 32 ≤ dir)
    (hin : dir + 12 * ns ≤ file.length)
    (hmod : ∀ i r, i < ns → IsModuleListEntry file dir i r → r + 28 ≤ file.length)
    (hoff : ∀ i r, i < ns → IsModuleListEntry file dir i r →
      r + 28 ≤ dir ∨ dir + 12 * ns ≤ r + 12) :
    (∀ (fs1 : FileSys) (file1 : List Nat) (ts1 : Nat) (hdr1 : IMAGE_OPTIONAL_HEADER)
        (exe1 W : List Nat), fixupDump fs1 file1 ts1 hdr1 exe1 = some (true, W) →
        read32 file1 0 = some MINIDUMP_SIGNATURE) ∧
    ((∃ W, fixupDump fs file ts hdr exe = some (true, W)) ↔
      read32 file 0 = some MINIDUMP_SIGNATURE) ∧
    (read32 file 0 ≠ some MINIDUMP_SIGNATURE →
      fixupDump fs file ts hdr exe = some (false, file)) := by
  refine ⟨fun _ _ _ _ _ _ h => fixupDump_success_signature h, ⟨?_, ?_⟩, ?_⟩
  · rintro ⟨W, hW⟩
    exact fixupDump_success_signature hW
  · intro hsig
    exact fixupDump_succeeds ts hdr exe hr hw hcwd hlen hsize hsig hns hlt hdir h32 hin
      hmod hoff
  · intro hsig
    exact fixupDump_rejects ts hdr exe (by omega) hsize hsig

/-- Witness of C4 (amended) on `sampleDump`. -/
theorem fixupDump_success_iff_signature_witness :
    ((∃ W, fixupDump sampleFs sampleDump sampleTs sampleHdr sampleExe = some (true, W)) ↔
      read32 sampleDump 0 = some MINIDUMP_SIGNATURE) ∧
    read32 sampleDump 0 = some MINIDUMP_SIGNATURE :=
  ⟨(fixupDump_success_iff_signature sampleFs sampleDump sampleTs sampleHdr sampleExe 1 32
      (by decide) (by decide) (by decide) (by decide) (by decide) (by decide) (by decide)
      (by decide) (by decide) (by decide)
      (fun _ r hi he => by have := sampleDump_entry hi he; subst this; decide)
      (fun _ r hi he => by have := sampleDump_entry hi he; omega)).2.1,
    by decide⟩

/-! ## The cleanup pass -/

theorem read32_drop (data : List Nat) (n o : Nat) :
    read32 (data.drop n) o = read32 data (n + o) := by
  unfold read32
  rw [List.getElem?_drop, List.getElem?_drop, List.getElem?_drop, List.getElem?_drop]
  rfl

/-- With the signature at offset 0 the pass returns before any write. -/
theorem cleanupDump_of_signature {fs : FileSys} {file : List Nat} (hr : fs.canRead = true)
    (h0 : read32 file 0 = some MINIDUMP_SIGNATURE) : cleanupDump fs file = some file := by
  simp [cleanupDump, hr, h0]

/-- With the signature at offset 8 and not at offset 0, and a length that fits
the `long`, the pass writes the bytes from offset 8 on. -/
theorem cleanupDump_of_shifted {fs : FileSys} {file : List Nat} (hr : fs.canRead = true)
    (hw : fs.canWrite = true) (hsize : file.length < 2147483648)
    (h0 : read32 file 0 ≠ some MINIDUMP_SIGNATURE)
    (h8 : read32 file 8 = some MINIDUMP_SIGNATURE) :
    cleanupDump fs file = some (file.drop 8) := by
  have hsmall : ¬ 2147483648 ≤ file.length := by omega
  have hb := read32_bound h8
  obtain ⟨v, hv⟩ := read32_eq_some_of_le file 0 (by omega)
  have hne : v ≠ MINIDUMP_SIGNATURE := fun h => h0 (by rw [hv, h])
  have htake : (file.drop 8).take (file.length - 8) = file.drop 8 :=
    List.take_of_length_le (by rw [List.length_drop])
  simp [cleanupDump, hr, hw, hsmall, hv, hne, h8, htake]

/-- A file whose length does not fit the `long` is left as it is. -/
theorem cleanupDump_of_large {fs : FileSys} {file : List Nat} (hr : fs.canRead = true)
    (hbig : 2147483648 ≤ file.length) : cleanupDump fs file = some file := by
  simp [cleanupDump, hr, hbig]

/-- With the signature at neither offset the pass returns before any write. -/
theorem cleanupDump_of_neither {fs : FileSys} {file : List Nat} (hr : fs.canRead = true)
    (hlen : 12 ≤ file.length) (h0 : read32 file 0 ≠ some MINIDUMP_SIGNATURE)
    (h8 : read32 file 8 ≠ some MINIDUMP_SIGNATURE) : cleanupDump fs file = some file := by
  obtain ⟨v, hv⟩ := read32_eq_some_of_le file 0 (by omega)
  obtain ⟨w, hw⟩ := read32_eq_some_of_le file 8 (by omega)
  have hne : v ≠ MINIDUMP_SIGNATURE := fun h => h0 (by rw [hv, h])
  have hne8 : w ≠ MINIDUMP_SIGNATURE := fun h => h8 (by rw [hw, h])
  simp [cleanupDump, hr, hv, hne, hw, hne8]

/-- What a successful run of the pipeline has gone through. -/
theorem processDump_success {fs : FileSys} {file : List Nat} {ts : Nat}
    {hdr : IMAGE_OPTIONAL_HEADER} {exe W : List Nat}
    (h : processDump fs file ts hdr exe = some (true, W)) :
    ∃ file1, cleanupDump fs file = some file1 ∧
      fixupDump fs file1 ts hdr exe = some (true, W) := by
  unfold processDump at h
  split at h
  · simp at h
  · next file1 hc => exact ⟨file1, hc, h⟩

/-- The file a successful rewrite writes: the cleanup pass leaves it alone, it
is one path record longer than the file read, and the record follows the
bytes of the buffer. -/
theorem fixupDump_written_shape {fs : FileSys} {file : List Nat} {ts : Nat}
    {hdr : IMAGE_OPTIONAL_HEADER} {exe W : List Nat}
    (hrun : fixupDump fs file ts hdr exe = some (true, W)) :
    cleanupDump fs W = some W ∧
    W.length = file.length + 4 + 2 * ((fs.cwd ++ [0x5C]).length + exe.length) + 1 ∧
    W.drop file.length = pathRecord fs.cwd exe := by
  have hr := (fixupDump_success hrun).1
  obtain ⟨data, dir, data1, -, -, -, hl, hW⟩ := fixupDump_written hrun
  refine ⟨cleanupDump_of_signature hr (fixupDump_written_signature hrun), ?_, ?_⟩
  · subst hW
    rw [List.length_append, pathRecord_length, hl]
    simp only [List.length_append, List.length_cons, List.length_nil]
    omega
  · subst hW
    rw [← hl, List.drop_left]

/-- C6, as stated, fails: `sampleDump` has the signature at offset 0 and 72
bytes; the rewrite pass turns it into the 91 bytes of `sampleWritten`, and the
cleanup pass, finding the signature at offset 0, leaves those 91 bytes as they
are: the appended path record is not removed. -/
theorem cleanupDump_keeps_path_record :
    read32 sampleDump 0 = some MINIDUMP_SIGNATURE ∧ sampleDump.length = 72 ∧
    fixupDump sampleFs sampleDump sampleTs sampleHdr sampleExe = some (true, sampleWritten) ∧
    cleanupDump sampleFs sampleWritten = some sampleWritten ∧
    sampleWritten.length = 91 ∧ sampleWritten.length ≠ sampleDump.length :=
  ⟨by decide, by decide, by decide, by decide, by decide, by decide⟩

/-- C6 (amended): for every dump of original length `n` on which the rewrite
pass succeeds, the cleanup pass run on the written file finds the signature at
offset 0 and leaves the file byte for byte as written: its length stays
`n + 4 + 2 * (|dir| + |exe|) + 1` and the path record still follows the
first `n` bytes.  The cleanup pass removes eight leading bytes of a file that
has the signature at offset 8, never the appended record. -/
theorem cleanupDump_after_fixupDump (fs : FileSys) (file : List Nat) (ts : Nat)
    (hdr : IMAGE_OPTIONAL_HEADER) (exe W : List Nat)
    (hrun : fixupDump fs file ts hdr exe = some (true, W)) :
    cleanupDump fs W = some W ∧
    W.length = file.length + 4 + 2 * ((fs.cwd ++ [0x5C]).length + exe.length) + 1 ∧
    W.drop file.length = pathRecord fs.cwd exe :=
  fixupDump_written_shape hrun

/-- Witness of C6 (amended) on `sampleDump`. -/
theorem cleanupDump_after_fixupDump_witness :
    fixupDump sampleFs sampleDump sampleTs sampleHdr sampleExe = some (true, sampleWritten) ∧
    (cleanupDump sampleFs sampleWritten = some sampleWritten ∧
      sampleWritten.length = sampleDump.length + 4 +
        2 * ((sampleFs.cwd ++ [0x5C]).length + sampleExe.length) + 1 ∧
      sampleWritten.drop sampleDump.length = pathRecord sampleFs.cwd sampleExe) :=
  ⟨by decide, cleanupDump_after_fixupDump sampleFs sampleDump sampleTs sampleHdr sampleExe
    sampleWritten (by decide)⟩

/-- C7, as stated, fails: the pipeline of `main` turns the 72 bytes of
`sampleDump` into the 91 bytes of `sampleWritten`, and run again on that file
it writes the 110 bytes of `sampleWrittenTwice`, which end with two path
records. -/
theorem processDump_twice_appends_twice :
    processDump sampleFs sampleDump sampleTs sampleHdr sampleExe = some (true, sampleWritten) ∧
    processDump sampleFs sampleWritten sampleTs sampleHdr sampleExe =
      some (true, sampleWrittenTwice) ∧
    sampleWritten.length = 91 ∧ sampleWrittenTwice.length = 110 ∧
    sampleWrittenTwice.length ≠ sampleWritten.length ∧
    sampleWrittenTwice.drop 72 =
      pathRecord sampleFs.cwd sampleExe ++ pathRecord sampleFs.cwd sampleExe :=
  ⟨by decide, by decide, by decide, by decide, by decide, by decide⟩

/-- C7 (amended): for every dump with the signature at offset 0 and original
length `n`, and a fixed executable and working directory, each successful run
of the per-file pipeline (`cleanupDump`, then `fixupDump`) appends one more
path record: after one run the file has `n + L` bytes and after two runs
`n + 2 * L`, where `L = 4 + 2 * (|dir| + |exe|) + 1` is the length of a
record, and each run leaves a record at the end of what it was given. -/
theorem processDump_twice (fs : FileSys) (file : List Nat) (ts : Nat)
    (hdr : IMAGE_OPTIONAL_HEADER) (exe W1 W2 : List Nat)
    (hsig : read32 file 0 = some MINIDUMP_SIGNATURE)
    (h1 : processDump fs file ts hdr exe = some (true, W1))
    (h2 : processDump fs W1 ts hdr exe = some (true, W2)) :
    W1.length = file.length + (4 + 2 * ((fs.cwd ++ [0x5C]).length + exe.length) + 1) ∧
    W2.length = file.length + 2 * (4 + 2 * ((fs.cwd ++ [0x5C]).length + exe.length) + 1) ∧
    W1.drop file.length = pathRecord fs.cwd exe ∧
    W2.drop W1.length = pathRecord fs.cwd exe := by
  obtain ⟨f1, hc1, hf1⟩ := processDump_success h1
  have hr := (fixupDump_success hf1).1
  rw [cleanupDump_of_signature hr hsig] at hc1
  injection hc1 with hc1
  subst hc1
  obtain ⟨f2, hc2, hf2⟩ := processDump_success h2
  rw [cleanupDump_of_signature hr (fixupDump_written_signature hf1)] at hc2
  injection hc2 with hc2
  subst hc2
  obtain ⟨-, hl1, hd1⟩ := fixupDump_written_shape hf1
  obtain ⟨-, hl2, hd2⟩ := fixupDump_written_shape hf2
  exact ⟨by omega, by omega, hd1, hd2⟩

/-- Witness of C7 (amended): two runs of the pipeline over `sampleDump`. -/
theorem processDump_twice_witness :
    read32 sampleDump 0 = some MINIDUMP_SIGNATURE ∧
    processDump sampleFs sampleDump sampleTs sampleHdr sampleExe = some (true, sampleWritten) ∧
    processDump sampleFs sampleWritten sampleTs sampleHdr sampleExe =
      some (true, sampleWrittenTwice) ∧
    sampleWrittenTwice.length = sampleDump.length +
      2 * (4 + 2 * ((sampleFs.cwd ++ [0x5C]).length + sampleExe.length) + 1) :=
  ⟨by decide, by decide, by decide,
    (processDump_twice sampleFs sampleDump sampleTs sampleHdr sampleExe sampleWritten
      sampleWrittenTwice (by decide) (by decide) (by decide)).2.1⟩

/-- C8: on every file of at least 12 bytes (both opens succeeding, which the
pass takes for granted) the cleanup pass has no undefined behaviour, and run
again on the bytes it left it leaves the same bytes. -/
theorem cleanupDump_idempotent (fs : FileSys) (file : List Nat)
    (hr : fs.canRead = true) (hw : fs.canWrite = true) (hlen : 12 ≤ file.length) :
    ∃ once, cleanupDump fs file = some once ∧ cleanupDump fs once = some once := by
  by_cases hbig : 2147483648 ≤ file.length
  · exact ⟨file, cleanupDump_of_large hr hbig, cleanupDump_of_large hr hbig⟩
  by_cases h0 : read32 file 0 = some MINIDUMP_SIGNATURE
  · exact ⟨file, cleanupDump_of_signature hr h0, cleanupDump_of_signature hr h0⟩
  · by_cases h8 : read32 file 8 = some MINIDUMP_SIGNATURE
    · refine ⟨file.drop 8, cleanupDump_of_shifted hr hw (by omega) h0 h8, ?_⟩
      apply cleanupDump_of_signature hr
      rw [read32_drop]
      exact h8
    · exact ⟨file, cleanupDump_of_neither hr hlen h0 h8, cleanupDump_of_neither hr hlen h0 h8⟩

/-- Witness of C8 on `shiftedDump`, which the first pass shortens to
`sampleDump`. -/
theorem cleanupDump_idempotent_witness :
    cleanupDump sampleFs shiftedDump = some sampleDump ∧
    ∃ once, cleanupDump sampleFs shiftedDump = some once ∧
      cleanupDump sampleFs once = some once :=
  ⟨by decide, cleanupDump_idempotent sampleFs shiftedDump (by decide) (by decide) (by decide)⟩

/-- C9: on every file whose 32-bit value at offset 0 is the signature the
cleanup pass leaves the file byte for byte as it was, whatever the file holds
at offset 8. -/
theorem cleanupDump_noop_of_signature (fs : FileSys) (file : List Nat)
    (hr : fs.canRead = true) (h0 : read32 file 0 = some MINIDUMP_SIGNATURE) :
    cleanupDump fs file = some file :=
  cleanupDump_of_signature hr h0

/-- Witness of C9 on `doubleSigDump`, which has the signature at offset 0 and
at offset 8. -/
theorem cleanupDump_noop_of_signature_witness :
    read32 doubleSigDump 8 = some MINIDUMP_SIGNATURE ∧
    cleanupDump sampleFs doubleSigDump = some doubleSigDump :=
  ⟨by decide, cleanupDump_noop_of_signature sampleFs doubleSigDump (by decide) (by decide)⟩

/-- C10, as stated, fails: `largeShiftedDump` has `2^31 + 12` bytes, no
signature at offset 0 and the signature at offset 8.  Its length does not fit
the `long fileSize`, `new char[fileSize]` fails, and the file is left as it
is, eight leading bytes included. -/
theorem cleanupDump_large_shifted :
    largeShiftedDump.length = 2147483648 + 12 ∧
    read32 largeShiftedDump 0 ≠ some MINIDUMP_SIGNATURE ∧
    read32 largeShiftedDump 8 = some MINIDUMP_SIGNATURE ∧
    sampleFs.canRead = true ∧ sampleFs.canWrite = true ∧
    cleanupDump sampleFs largeShiftedDump = some largeShiftedDump ∧
    cleanupDump sampleFs largeShiftedDump ≠ some (largeShiftedDump.drop 8) := by
  have hlen : largeShiftedDump.length = 2147483648 + 12 := by
    show ([1, 2, 3, 4, 5, 6, 7, 8, 0x4D, 0x44, 0x4D, 0x50] ++
      List.replicate 2147483648 0).length = _
    rw [List.length_append, List.length_replicate]
    rfl
  have h0 : read32 largeShiftedDump 0 = some 0x04030201 :=
    read32_append_left _ (by decide)
  have h8 : read32 largeShiftedDump 8 = some MINIDUMP_SIGNATURE :=
    read32_append_left _ (by decide)
  have hrun : cleanupDump sampleFs largeShiftedDump = some largeShiftedDump :=
    cleanupDump_of_large rfl (by omega)
  refine ⟨hlen, by rw [h0]; decide, h8, rfl, rfl, hrun, ?_⟩
  rw [hrun]
  intro h
  injection h with h
  have hl := congrArg List.length h
  rw [List.length_drop] at hl
  omega

/-- C10 (amended): on every file of length `n < 2^31` (a length the
`long fileSize` holds) whose 32-bit value at offset 0 is not the signature and
whose value at offset 8 is, the cleanup pass rewrites the file to the bytes
`[8, n)` of the original: the result has `n - 8` bytes, its byte `i` is the
original byte `i + 8`, and it has the signature at offset 0. -/
theorem cleanupDump_strips_eight (fs : FileSys) (file : List Nat)
    (hr : fs.canRead = true) (hw : fs.canWrite = true)
    (hsize : file.length < 2147483648)
    (h0 : read32 file 0 ≠ some MINIDUMP_SIGNATURE)
    (h8 : read32 file 8 = some MINIDUMP_SIGNATURE) :
    ∃ out, cleanupDump fs file = some out ∧ out = file.drop 8 ∧
      out.length = file.length - 8 ∧ (∀ i, out[i]? = file[i + 8]?) ∧
      read32 out 0 = some MINIDUMP_SIGNATURE := by
  refine ⟨file.drop 8, cleanupDump_of_shifted hr hw hsize h0 h8, rfl, List.length_drop _ _,
    ?_, ?_⟩
  · intro i
    rw [List.getElem?_drop, Nat.add_comm]
  · rw [read32_drop]
    exact h8

/-- Witness of C10 (amended) on `shiftedDump`. -/
theorem cleanupDump_strips_eight_witness :
    shiftedDump.length = 80 ∧
    ∃ out, cleanupDump sampleFs shiftedDump = some out ∧ out = shiftedDump.drop 8 ∧
      out.length = shiftedDump.length - 8 ∧ (∀ i, out[i]? = shiftedDump[i + 8]?) ∧
      read32 out 0 = some MINIDUMP_SIGNATURE :=
  ⟨by decide, cleanupDump_strips_eight sampleFs shiftedDump (by decide) (by decide)
    (by decide) (by decide) (by decide)⟩

/-! ## The cleanup pass: unrecognised files -/

/-- C19: on every dump on which the rewrite pass succeeds, bytes `[0, 12)` of
the written file are those of the input, the written file has the signature at
offset 0 and the stream count of the input at offset 8; and over any stretch of
the directory walk the first 12 bytes of the buffer, the loop bound among them,
stay as they are. -/
theorem fixupDump_keeps_first_twelve (fs : FileSys) (file : List Nat) (ts : Nat)
    (hdr : IMAGE_OPTIONAL_HEADER) (exe W : List Nat)
    (hrun : fixupDump fs file ts hdr exe = some (true, W)) :
    (∀ k, k < 12 → W[k]? = file[k]?) ∧
    read32 W 0 = some MINIDUMP_SIGNATURE ∧
    read32 W 8 = read32 file 8 ∧
    (∀ (dir fuel ii : Nat) (data d : List Nat),
      fixupLoop file.length ts hdr dir fuel ii data = some d →
      (∀ k, k < 12 → d[k]? = data[k]?) ∧ read32 d 8 = read32 data 8) := by
  obtain ⟨data, dir, data1, hdata, -, hloop, hl, hW⟩ := fixupDump_written hrun
  have hbytes : ∀ k, k < 12 → W[k]? = file[k]? := by
    intro k hk
    subst hW
    have hlen := write32_bound hdata
    rw [List.getElem?_append_left (by omega), fixupLoop_low _ _ _ _ hloop k hk,
      write32_getElem?_outside hdata (by omega)]
  refine ⟨hbytes, fixupDump_written_signature hrun, ?_, ?_⟩
  · exact read32_congr fun k _ _ => hbytes k (by omega)
  · intro dir1 fuel ii d0 d h
    exact ⟨fixupLoop_low _ _ _ _ h, read32_congr fun k _ _ => fixupLoop_low _ _ _ _ h k (by omega)⟩

/-- Witness of C19 on `sampleDump`. -/
theorem fixupDump_keeps_first_twelve_witness :
    fixupDump sampleFs sampleDump sampleTs sampleHdr sampleExe = some (true, sampleWritten) ∧
    sampleWritten.take 12 = sampleDump.take 12 ∧
    ((∀ k, k < 12 → sampleWritten[k]? = sampleDump[k]?) ∧
      read32 sampleWritten 0 = some MINIDUMP_SIGNATURE ∧
      read32 sampleWritten 8 = read32 sampleDump 8) :=
  have h := fixupDump_keeps_first_twelve sampleFs sampleDump sampleTs sampleHdr sampleExe
    sampleWritten (by decide)
  ⟨by decide, by decide, h.1, h.2.1, h.2.2.1⟩

/-! ## The rewrite pass: the length field of the path record -/

/-- C20: on every successful rewrite with an executable path within
`MAX_PATH`, the 32-bit length field written at offset `n` holds
`2 * |exe| + |dir|`, where `dir` is the current directory with its backslash
(so `|dir| ≥ 1`); the wide string that follows it takes `2 * (|dir| + |exe|)`
bytes, which is more than the field says, by exactly `|dir|`. -/
theorem fixupDump_length_field_short (fs : FileSys) (file : List Nat) (ts : Nat)
    (hdr : IMAGE_OPTIONAL_HEADER) (exe W : List Nat)
    (hrun : fixupDump fs file ts hdr exe = some (true, W))
    (hexe : exe.length ≤ MAX_PATH) :
    read32 W file.length = some (2 * exe.length + (fs.cwd ++ [0x5C]).length) ∧
    W.drop (file.length + 4) = wideBytes ((fs.cwd ++ [0x5C]) ++ exe) ++ [0] ∧
    (wideBytes ((fs.cwd ++ [0x5C]) ++ exe)).length =
      2 * ((fs.cwd ++ [0x5C]).length + exe.length) ∧
    1 ≤ (fs.cwd ++ [0x5C]).length ∧
    2 * exe.length + (fs.cwd ++ [0x5C]).length <
      (wideBytes ((fs.cwd ++ [0x5C]) ++ exe)).length ∧
    (wideBytes ((fs.cwd ++ [0x5C]) ++ exe)).length -
      (2 * exe.length + (fs.cwd ++ [0x5C]).length) = (fs.cwd ++ [0x5C]).length := by
  obtain ⟨-, -, hcwd, -⟩ := fixupDump_success hrun
  obtain ⟨data, dir, data1, -, -, -, hl, hW⟩ := fixupDump_written hrun
  have hmax : MAX_PATH = 260 := rfl
  have hdirlen : (fs.cwd ++ [0x5C]).length = fs.cwd.length + 1 := by simp
  have hwide : (wideBytes ((fs.cwd ++ [0x5C]) ++ exe)).length =
      2 * ((fs.cwd ++ [0x5C]).length + exe.length) := by
    rw [wideBytes_length, List.length_append]
  refine ⟨?_, ?_, hwide, by omega, by omega, by omega⟩
  · subst hW
    have h := read32_append_right data1 (pathRecord fs.cwd exe) 0
    rw [Nat.add_zero, hl] at h
    rw [h]
    have h2 := read32_le32 (exe.length * 2 + (fs.cwd ++ [0x5C]).length)
      ((wideBytes (fs.cwd ++ [0x5C]) ++ wideBytes exe) ++ [0])
    rw [Nat.mod_eq_of_lt (by omega)] at h2
    rw [Nat.mul_comm 2 exe.length, ← h2]
    simp only [pathRecord, List.append_assoc]
  · subst hW
    rw [← hl, List.drop_append, wideBytes_append]
    simp only [pathRecord, le32, List.append_assoc, List.cons_append, List.nil_append,
      List.drop_succ_cons, List.drop_zero]

/-- Witness of C20 on `sampleDump`: the field holds 9, the wide string takes
14 bytes. -/
theorem fixupDump_length_field_short_witness :
    fixupDump sampleFs sampleDump sampleTs sampleHdr sampleExe = some (true, sampleWritten) ∧
    read32 sampleWritten 72 = some 9 ∧
    (wideBytes ((sampleFs.cwd ++ [0x5C]) ++ sampleExe)).length = 14 ∧
    2 * sampleExe.length + (sampleFs.cwd ++ [0x5C]).length <
      (wideBytes ((sampleFs.cwd ++ [0x5C]) ++ sampleExe)).length :=
  ⟨by decide, by decide, by decide,
    (fixupDump_length_field_short sampleFs sampleDump sampleTs sampleHdr sampleExe
      sampleWritten (by decide) (by decide)).2.2.2.2.1⟩

/-! ## The rewrite pass: dumps without a module list -/

theorem lt_toInt32_iff (ns ii : Nat) : (ii : Int) < toInt32 ns ↔ ii < walkCount ns := by
  unfold walkCount
  omega

theorem walkCount_le (ns : Nat) : walkCount ns ≤ ns := by
  unfold walkCount toInt32
  split <;> omega

theorem walkCount_of_lt {ns : Nat} (h : ns < 2147483648) : walkCount ns = ns := by
  unfold walkCount
  rw [toInt32_of_lt h]
  exact Int.toNat_ofNat ns

theorem walkCount_of_ge {ns : Nat} (h : 2147483648 ≤ ns) (h32 : ns < 4294967296) :
    walkCount ns = 0 := by
  unfold walkCount toInt32
  split <;> omega

/-- A walk over entries none of which is tagged as a module list returns the
buffer it was given. -/
theorem fixupLoop_no_module (fileSize ts : Nat) (hdr : IMAGE_OPTIONAL_HEADER)
    {dir ns cnt : Nat} {data : List Nat} (hns : read32 data 8 = some ns)
    (hcnt : ∀ ii : Nat, (ii : Int) < toInt32 ns ↔ ii < cnt)
    (hty : ∀ i, i < cnt → ∃ ty, read32 data (dir + 12 * i) = some ty ∧ ty ≠ ModuleListStream) :
    ∀ (fuel ii : Nat), ii ≤ cnt → cnt < ii + fuel →
      fixupLoop fileSize ts hdr dir fuel ii data = some data := by
  intro fuel
  induction fuel with
  | zero => intro ii h1 h2; omega
  | succ fuel ih =>
    intro ii hle hfuel
    rw [fixupLoop_succ]
    by_cases hii : ii < cnt
    · obtain ⟨ty, hty1, hne⟩ := hty ii hii
      simp only [hns, if_pos ((hcnt ii).mpr hii), hty1, if_neg hne]
      exact ih (ii + 1) (by omega) (by omega)
    · have hge : ¬ (ii : Int) < toInt32 ns := fun h => hii ((hcnt ii).mp h)
      simp only [hns, if_neg hge]

/-- C13, as stated, fails: `truncatedDump` has the signature at offset 0 and
stream count 0, so its directory holds no module-list entry, and both opens
succeed; but the file ends at byte 16, and the store `header->CheckSum = 0`
at offset 16 falls outside the 16-byte buffer: the run is undefined and
reports no success. -/
theorem fixupDump_truncated_header :
    truncatedDump.length = 16 ∧ read32 truncatedDump 0 = some MINIDUMP_SIGNATURE ∧
    read32 truncatedDump 8 = some 0 ∧
    sampleFs.canRead = true ∧ sampleFs.canWrite = true ∧
    write32 truncatedDump 16 0 = none ∧
    fixupDump sampleFs truncatedDump sampleTs sampleHdr sampleExe = none ∧
    ¬ ∃ W, fixupDump sampleFs truncatedDump sampleTs sampleHdr sampleExe = some (true, W) := by
  have h : fixupDump sampleFs truncatedDump sampleTs sampleHdr sampleExe = none := by decide
  refine ⟨by decide, by decide, by decide, rfl, rfl, by decide, h, ?_⟩
  rintro ⟨W, hW⟩
  rw [h] at hW
  exact absurd hW (by simp)

/-- C13 (amended): when both opens succeed and the current directory fits
`fullPath`, on every dump of fewer than `2^31` bytes (a length the
`long fileSize` holds) that holds its 32-byte header with the signature and
whose directory entries below the stream count all lie in the file behind the
header and are none of them tagged as a module list (in particular on such a
dump with stream count 0), the rewrite pass returns success, and the written
file is the original bytes with only the container checksum field zeroed,
followed by the path record. -/
theorem fixupDump_without_module_list (fs : FileSys) (file : List Nat) (ts : Nat)
    (hdr : IMAGE_OPTIONAL_HEADER) (exe : List Nat) (ns dir : Nat)
    (hr : fs.canRead = true) (hw : fs.canWrite = true)
    (hcwd : fs.cwd.length + 2 ≤ MAX_PATH) (hlen : 32 ≤ file.length)
    (hsize : file.length < 2147483648)
    (hsig : read32 file 0 = some MINIDUMP_SIGNATURE)
    (hns : read32 file 8 = some ns) (hdir : read32 file 12 = some dir)
    (hent : ∀ i, i < ns → 32 ≤ dir + 12 * i ∧ dir + 12 * i + 12 ≤ file.length ∧
      read32 file (dir + 12 * i) ≠ some ModuleListStream) :
    ∃ data, fixupDump fs file ts hdr exe = some (true, data ++ pathRecord fs.cwd exe) ∧
      data.length = file.length ∧ read32 data 16 = some 0 ∧
      ∀ k, k < 16 ∨ 20 ≤ k → data[k]? = file[k]? := by
  obtain ⟨data, hdata⟩ := write32_eq_some_of_le file 16 0 (by omega)
  have hl := write32_length hdata
  have hns1 : read32 data 8 = some ns := by rw [read32_clear hdata (by omega), hns]
  have hty : ∀ i, i < walkCount ns →
      ∃ ty, read32 data (dir + 12 * i) = some ty ∧ ty ≠ ModuleListStream := by
    intro i hi
    obtain ⟨h1, h2, h3⟩ := hent i (Nat.lt_of_lt_of_le hi (walkCount_le ns))
    obtain ⟨ty, hty⟩ := read32_eq_some_of_le file (dir + 12 * i) (by omega)
    refine ⟨ty, by rw [read32_clear hdata (by omega), hty], fun h => h3 (by rw [hty, h])⟩
  have hcount : walkCount ns < 0 + 2147483648 := by
    have := toInt32_lt ns
    unfold walkCount
    omega
  have hloop := fixupLoop_no_module file.length ts hdr hns1 (lt_toInt32_iff ns) hty
    2147483648 0 (Nat.zero_le _) hcount
  refine ⟨data, fixupDump_eq_success hr hw hcwd hsize hdata
    (by rw [read32_clear hdata (by omega), hsig])
    (by rw [read32_clear hdata (by omega), hdir]) hloop, hl, ?_, ?_⟩
  · have := read32_write32_same hdata
    simpa using this
  · intro k hk
    exact write32_getElem?_outside hdata (by omega)

/-- Witness of C13 (amended) on `zeroStreamDump`: the written file is the
header with the checksum `0xDEADBEEF` zeroed, then the path record. -/
theorem fixupDump_without_module_list_witness :
    fixupDump sampleFs zeroStreamDump sampleTs sampleHdr sampleExe =
      some (true, zeroStreamWritten) ∧
    read32 zeroStreamDump 16 = some 0xDEADBEEF ∧
    ∃ data, fixupDump sampleFs zeroStreamDump sampleTs sampleHdr sampleExe =
        some (true, data ++ pathRecord sampleFs.cwd sampleExe) ∧
      data.length = zeroStreamDump.length ∧ read32 data 16 = some 0 ∧
      ∀ k, k < 16 ∨ 20 ≤ k → data[k]? = zeroStreamDump[k]? :=
  ⟨by decide, by decide,
    fixupDump_without_module_list sampleFs zeroStreamDump sampleTs sampleHdr sampleExe 0 32
      (by decide) (by decide) (by decide) (by decide) (by decide) (by decide) (by decide)
      (by decide)
      (fun i hi => absurd hi (Nat.not_lt_zero i))⟩

/-! ## The rewrite pass: what it leaves alone -/

/-- When the patched fields of every module-list entry lie off the directory,
a byte the walk changes lies in the patched fields of a module-list entry of
the directory. -/
theorem fixupLoop_frame {fileSize ts : Nat} {hdr : IMAGE_OPTIONAL_HEADER} {dir ns cnt : Nat}
    {D : List Nat} (hns : read32 D 8 = some ns)
    (hcnt : ∀ ii : Nat, (ii : Int) < toInt32 ns ↔ ii < cnt)
    (hoff : ∀ i r, i < cnt → IsModuleListEntry D dir i r →
      r + 28 ≤ dir ∨ dir + 12 * cnt ≤ r + 12) :
    ∀ (fuel ii : Nat) (data d : List Nat), SameView dir cnt D data →
      fixupLoop fileSize ts hdr dir fuel ii data = some d →
      ∀ k, d[k]? ≠ data[k]? →
        ∃ i r, i < cnt ∧ IsModuleListEntry D dir i r ∧ r + 12 ≤ k ∧ k < r + 28 := by
  intro fuel
  induction fuel with
  | zero => intro ii data d _ h; simp [fixupLoop] at h
  | succ fuel ih =>
    intro ii data d hv h k hk
    obtain ⟨ns1, hns1, hcase⟩ := fixupLoop_step h
    rw [hv.read_count, hns] at hns1
    injection hns1 with hns1
    subst hns1
    rw [hcnt] at hcase
    rcases hcase with ⟨-, rfl⟩ | ⟨hii, ty, hty, ⟨-, hrec⟩ | ⟨hmod, rva, data1, hrva, hp, hrec⟩⟩
    · exact absurd rfl hk
    · exact ih _ _ _ hv hrec k hk
    · rw [hv.read_type hii] at hty
      rw [hv.read_rva hii] at hrva
      subst hmod
      have hent : IsModuleListEntry D dir ii rva := ⟨hty, hrva⟩
      by_cases hkk : d[k]? = data1[k]?
      · refine ⟨ii, rva, hii, hent, ?_⟩
        by_cases hout : k < rva + 12 ∨ rva + 28 ≤ k
        · exact absurd (by rw [hkk, patchModule_getElem?_outside hp hout]) hk
        · omega
      · exact ih _ _ _ (hv.patch hp (hoff ii rva hii hent)) hrec k hkk

/-- C12, as stated, fails: in `retagDump` the directory holds one module-list
entry, for offset 32, whose patched fields `[44, 60)` are the second directory
entry, of type 3.  The stores for the first entry turn the second into a
module-list entry for offset 60 (the image size 4 lands in its type, the
timestamp 60 in its `Rva`), and the walk then patches `[72, 88)`: byte 72 of
the written file differs from the original although it is neither in the
container checksum nor in the first module record of a module-list stream of
the directory. -/
theorem fixupDump_retag_frame :
    fixupDump sampleFs retagDump retagTs retagHdr sampleExe = some (true, retagWritten) ∧
    read32 retagDump 8 = some 2 ∧ read32 retagDump 12 = some 32 ∧
    IsModuleListEntry retagDump 32 0 32 ∧ read32 retagDump (32 + 12 * 1) = some 3 ∧
    retagDump.length = 96 ∧
    retagDump[72]? = some 0xAA ∧ retagWritten[72]? = some 4 ∧
    ¬ (16 ≤ 72 ∧ 72 < 20) ∧ ¬ (32 + 12 ≤ 72 ∧ 72 < 32 + 28) :=
  ⟨by decide, by decide, by decide, ⟨by decide, by decide⟩, by decide, by decide, by decide,
    by decide, by decide, by decide⟩

/-- C12 (amended): on every dump on which the rewrite pass succeeds, whose
directory (if it has entries) lies behind the 32-byte header, and in which the
patched fields `[Rva + 12, Rva + 28)` of every module-list entry lie off the
directory, a byte among the first `n` of the written file that differs from
the original lies in the container checksum `[16, 20)` or in the four patched
fields of the first module record of a module-list entry of the directory;
every other byte is unchanged. -/
theorem fixupDump_frame (fs : FileSys) (file : List Nat) (ts : Nat)
    (hdr : IMAGE_OPTIONAL_HEADER) (exe W : List Nat) (ns dir : Nat)
    (hrun : fixupDump fs file ts hdr exe = some (true, W))
    (hns : read32 file 8 = some ns) (hdir : read32 file 12 = some dir)
    (h32 : 0 < ns → 32 ≤ dir)
    (hoff : ∀ i r, i < ns → IsModuleListEntry file dir i r →
      r + 28 ≤ dir ∨ dir + 12 * ns ≤ r + 12) :
    ∀ k, k < file.length → W[k]? ≠ file[k]? →
      (16 ≤ k ∧ k < 20) ∨
      ∃ i r, i < ns ∧ IsModuleListEntry file dir i r ∧ r + 12 ≤ k ∧ k < r + 28 := by
  intro k hk hne
  obtain ⟨data, dir1, data1, hdata, hdir1, hloop, hl, hW⟩ := fixupDump_written hrun
  rw [read32_clear hdata (by omega), hdir] at hdir1
  injection hdir1 with hdir1
  subst hdir1
  have hns1 : read32 data 8 = some ns := by rw [read32_clear hdata (by omega), hns]
  have hle := walkCount_le ns
  have hclear : ∀ {i r : Nat}, i < walkCount ns →
      (IsModuleListEntry data dir i r ↔ IsModuleListEntry file dir i r) :=
    fun hi => IsModuleListEntry.clear hdata (by have := h32 (by omega); omega)
  have hoff1 : ∀ i r, i < walkCount ns → IsModuleListEntry data dir i r →
      r + 28 ≤ dir ∨ dir + 12 * walkCount ns ≤ r + 12 := by
    intro i r hi he
    rcases hoff i r (by omega) ((hclear hi).mp he) with h | h
    · exact Or.inl h
    · exact Or.inr (by omega)
  subst hW
  rw [List.getElem?_append_left (by omega)] at hne
  by_cases hd : data1[k]? = data[k]?
  · left
    by_cases hout : k < 16 ∨ 16 + 4 ≤ k
    · exact absurd (by rw [hd, write32_getElem?_outside hdata hout]) hne
    · omega
  · right
    obtain ⟨i, r, hi, he, h1, h2⟩ := fixupLoop_frame hns1 (lt_toInt32_iff ns) hoff1 _ _ _ _
      (SameView.refl dir (walkCount ns) data) hloop k hd
    exact ⟨i, r, by omega, (hclear hi).mp he, h1, h2⟩

/-- Witness of C12 (amended) on `sampleDump`: byte 48, in the base address of
the first module record, is unchanged; byte 60, in its checksum, is not. -/
theorem fixupDump_frame_witness :
    fixupDump sampleFs sampleDump sampleTs sampleHdr sampleExe = some (true, sampleWritten) ∧
    sampleWritten[48]? = sampleDump[48]? ∧ sampleWritten[60]? ≠ sampleDump[60]? ∧
    ((16 ≤ 60 ∧ 60 < 20) ∨
      ∃ i r, i < 1 ∧ IsModuleListEntry sampleDump 32 i r ∧ r + 12 ≤ 60 ∧ 60 < r + 28) :=
  ⟨by decide, by decide, by decide,
    fixupDump_frame sampleFs sampleDump sampleTs sampleHdr sampleExe sampleWritten 1 32
      (by decide) (by decide) (by decide) (by decide)
      (fun _ r hi he => by have := sampleDump_entry hi he; omega)
      60 (by decide) (by decide)⟩

/-! ## The rewrite pass: accesses stay in the buffer -/

/-- C18, as stated, fails: `strikeDump` has 56 bytes, the signature, its two
directory entries in `[32, 56)`, and one entry tagged as a module list, whose
first module record `[28, 56)` lies in the file.  The stores for that entry
land on the second directory entry: the checksum 4 in its type and the file
size 56 in its `Rva`.  The walk then takes the second entry for a module list
at offset 56 and stores outside the buffer. -/
theorem fixupDump_strike_out_of_bounds :
    strikeDump.length = 56 ∧ read32 strikeDump 0 = some MINIDUMP_SIGNATURE ∧
    read32 strikeDump 8 = some 2 ∧ read32 strikeDump 12 = some 32 ∧
    IsModuleListEntry strikeDump 32 0 28 ∧ read32 strikeDump (32 + 12 * 1) = some 3 ∧
    fixupDump sampleFs strikeDump sampleTs strikeHdr sampleExe = none ∧
    (∃ data, write32 strikeDump 16 0 = some data ∧
      fixupLoop strikeDump.length sampleTs strikeHdr 32 2147483648 0 data = none) :=
  ⟨by decide, by decide, by decide, by decide, ⟨by decide, by decide⟩, by decide, by decide,
    ⟨_, rfl, by decide⟩⟩

/-- C18 (amended): on every dump of length `n` with `32 ≤ n < 2^31` (a length
the `long fileSize` holds, so that the buffer has `n` bytes) with the
signature such that, in the original bytes, the directory range
`[StreamDirectoryRva, StreamDirectoryRva + 12 * NumberOfStreams)` lies within
`[0, n)` and (if it has entries) behind the 32-byte header, and for every
directory entry tagged as a module list the first module record
`[Rva, Rva + 28)` lies within `[0, n)` and its patched fields
`[Rva + 12, Rva + 28)` lie off the directory, every read and write the rewrite
pass performs on the buffer is within `[0, n)`: the clearing of the checksum,
the reads of signature and directory offset and the whole directory walk go
through, and a run whose current directory fits `fullPath` has no fault. -/
theorem fixupDump_buffer_safe (fs : FileSys) (file : List Nat) (ts : Nat)
    (hdr : IMAGE_OPTIONAL_HEADER) (exe : List Nat) (ns dir : Nat)
    (hlen : 32 ≤ file.length) (hsize : file.length < 2147483648)
    (hsig : read32 file 0 = some MINIDUMP_SIGNATURE)
    (hns : read32 file 8 = some ns) (hdir : read32 file 12 = some dir)
    (h32 : 0 < ns → 32 ≤ dir) (hin : dir + 12 * ns ≤ file.length)
    (hmod : ∀ i r, i < ns → IsModuleListEntry file dir i r → r + 28 ≤ file.length)
    (hoff : ∀ i r, i < ns → IsModuleListEntry file dir i r →
      r + 28 ≤ dir ∨ dir + 12 * ns ≤ r + 12) :
    (∃ data data1, write32 file 16 0 = some data ∧
      read32 data 0 = some MINIDUMP_SIGNATURE ∧ read32 data 12 = some dir ∧
      fixupLoop file.length ts hdr dir 2147483648 0 data = some data1) ∧
    (fs.cwd.length + 2 ≤ MAX_PATH → fixupDump fs file ts hdr exe ≠ none) := by
  obtain ⟨data, hdata⟩ := write32_eq_some_of_le file 16 0 (by omega)
  have hl := write32_length hdata
  have hle := walkCount_le ns
  have hclear : ∀ {i r : Nat}, i < walkCount ns →
      (IsModuleListEntry data dir i r ↔ IsModuleListEntry file dir i r) :=
    fun hi => IsModuleListEntry.clear hdata (by have := h32 (by omega); omega)
  have hns1 : read32 data 8 = some ns := by rw [read32_clear hdata (by omega), hns]
  have hsig1 : read32 data 0 = some MINIDUMP_SIGNATURE := by
    rw [read32_clear hdata (by omega), hsig]
  have hdir1 : read32 data 12 = some dir := by rw [read32_clear hdata (by omega), hdir]
  have hcount : walkCount ns < 0 + 2147483648 := by
    have := toInt32_lt ns
    unfold walkCount
    omega
  obtain ⟨data1, hloop⟩ := fixupLoop_total file.length ts hdr hns1 (lt_toInt32_iff ns)
    (by rw [hl]; omega)
    (fun i r hi he => by rw [hl]; exact hmod i r (by omega) ((hclear hi).mp he))
    (fun i r hi he => by
      rcases hoff i r (by omega) ((hclear hi).mp he) with h | h
      · exact Or.inl h
      · exact Or.inr (by omega))
    2147483648 0 data (Nat.zero_le _) hcount (SameView.refl dir (walkCount ns) data)
  refine ⟨⟨data, data1, hdata, hsig1, hdir1, hloop⟩, fun hcwd => ?_⟩
  have hcwd1 : ¬ MAX_PATH < fs.cwd.length + 2 := by omega
  have hsmall : ¬ 2147483648 ≤ file.length := by omega
  unfold fixupDump
  simp only [hsmall, hdata, hsig1, hdir1, hloop, ne_eq, not_true_eq_false, if_false, hcwd1]
  split
  · simp
  · split <;> simp

/-- Witness of C18 (amended) on `sampleDump`. -/
theorem fixupDump_buffer_safe_witness :
    (∃ data data1, write32 sampleDump 16 0 = some data ∧
      read32 data 0 = some MINIDUMP_SIGNATURE ∧ read32 data 12 = some 32 ∧
      fixupLoop sampleDump.length sampleTs sampleHdr 32 2147483648 0 data = some data1) ∧
    fixupDump sampleFs sampleDump sampleTs sampleHdr sampleExe ≠ none :=
  have h := fixupDump_buffer_safe sampleFs sampleDump sampleTs sampleHdr sampleExe 1 32
    (by decide) (by decide) (by decide) (by decide) (by decide) (by decide) (by decide)
    (fun _ r hi he => by have := sampleDump_entry hi he; subst this; decide)
    (fun _ r hi he => by have := sampleDump_entry hi he; omega)
  ⟨h.1, h.2 (by decide)⟩

/-! ## The trace of the directory walk -/

theorem fixupVisits_succ (fileSize ts : Nat) (hdr : IMAGE_OPTIONAL_HEADER)
    (dir fuel ii : Nat) (data : List Nat) :
    fixupVisits fileSize ts hdr dir (fuel + 1) ii data =
      match read32 data 8 with
      | none => []
      | some numberOfStreams =>
        if (ii : Int) < toInt32 numberOfStreams then
          match read32 data (dir + 12 * ii) with
          | none => []
          | some streamType =>
            if streamType = ModuleListStream then
              match read32 data (dir + 12 * ii + 8) with
              | none => []
              | some rva =>
                match patchModule fileSize ts hdr rva data with
                | none => [(ii, some rva)]
                | some data1 =>
                  (ii, some rva) :: fixupVisits fileSize ts hdr dir fuel (ii + 1) data1
            else (ii, none) :: fixupVisits fileSize ts hdr dir fuel (ii + 1) data
        else [] := rfl

/-- The trace of a walk that ends, read along the cases of its first test. -/
theorem fixupVisits_step {fileSize ts : Nat} {hdr : IMAGE_OPTIONAL_HEADER} {dir fuel ii : Nat}
    {data d : List Nat} (h : fixupLoop fileSize ts hdr dir (fuel + 1) ii data = some d) :
    ∃ ns, read32 data 8 = some ns ∧
      ((¬ (ii : Int) < toInt32 ns ∧ d = data ∧
          fixupVisits fileSize ts hdr dir (fuel + 1) ii data = []) ∨
       ((ii : Int) < toInt32 ns ∧ ∃ ty, read32 data (dir + 12 * ii) = some ty ∧
         ((ty ≠ ModuleListStream ∧ fixupLoop fileSize ts hdr dir fuel (ii + 1) data = some d ∧
            fixupVisits fileSize ts hdr dir (fuel + 1) ii data =
              (ii, none) :: fixupVisits fileSize ts hdr dir fuel (ii + 1) data) ∨
          (ty = ModuleListStream ∧ ∃ rva data1, read32 data (dir + 12 * ii + 8) = some rva ∧
            patchModule fileSize ts hdr rva data = some data1 ∧
            fixupLoop fileSize ts hdr dir fuel (ii + 1) data1 = some d ∧
            fixupVisits fileSize ts hdr dir (fuel + 1) ii data =
              (ii, some rva) :: fixupVisits fileSize ts hdr dir fuel (ii + 1) data1)))) := by
  obtain ⟨ns, hns, hcase⟩ := fixupLoop_step h
  refine ⟨ns, hns, ?_⟩
  rw [fixupVisits_succ]
  rcases hcase with ⟨hge, rfl⟩ | ⟨hlt, ty, hty, ⟨hne, hrec⟩ | ⟨hmod, rva, data1, hrva, hp, hrec⟩⟩
  · exact Or.inl ⟨hge, rfl, by simp only [hns, if_neg hge]⟩
  · exact Or.inr ⟨hlt, ty, hty, Or.inl ⟨hne, hrec, by simp only [hns, if_pos hlt, hty, if_neg hne]⟩⟩
  · exact Or.inr ⟨hlt, ty, hty, Or.inr ⟨hmod, rva, data1, hrva, hp, hrec,
      by simp only [hns, if_pos hlt, hty, if_pos hmod, hrva, hp]⟩⟩

/-- The trace lists the stores of the walk: done again in order on the buffer
the walk started from, they give the buffer the walk returns. -/
theorem fixupLoop_replay {fileSize ts : Nat} {hdr : IMAGE_OPTIONAL_HEADER} {dir : Nat} :
    ∀ (fuel ii : Nat) (data d : List Nat),
      fixupLoop fileSize ts hdr dir fuel ii data = some d →
      replayVisits fileSize ts hdr (fixupVisits fileSize ts hdr dir fuel ii data) data = some d := by
  intro fuel
  induction fuel with
  | zero => intro ii data d h; simp [fixupLoop] at h
  | succ fuel ih =>
    intro ii data d h
    obtain ⟨ns, -, hcase⟩ := fixupVisits_step h
    rcases hcase with ⟨-, rfl, hv⟩ | ⟨-, ty, -, ⟨-, hrec, hv⟩ | ⟨-, rva, data1, -, hp, hrec, hv⟩⟩
    · rw [hv]; rfl
    · rw [hv]
      exact ih _ _ _ hrec
    · rw [hv]
      simp only [replayVisits, hp]
      exact ih _ _ _ hrec

/-- A walk that ends examines the entries from its counter up to the count the
header holds, one after the other. -/
theorem fixupVisits_indices {fileSize ts : Nat} {hdr : IMAGE_OPTIONAL_HEADER}
    {dir ns cnt : Nat} (hcnt : ∀ ii : Nat, (ii : Int) < toInt32 ns ↔ ii < cnt) :
    ∀ (fuel ii : Nat) (data d : List Nat), read32 data 8 = some ns →
      fixupLoop fileSize ts hdr dir fuel ii data = some d →
      (fixupVisits fileSize ts hdr dir fuel ii data).map Prod.fst = List.range' ii (cnt - ii) := by
  intro fuel
  induction fuel with
  | zero => intro ii data d _ h; simp [fixupLoop] at h
  | succ fuel ih =>
    intro ii data d hns h
    obtain ⟨ns1, hns1, hcase⟩ := fixupVisits_step h
    rw [hns] at hns1
    injection hns1 with hns1
    subst hns1
    rw [hcnt] at hcase
    rcases hcase with ⟨hge, -, hv⟩ | ⟨hii, ty, -, ⟨-, hrec, hv⟩ | ⟨-, rva, data1, -, hp, hrec, hv⟩⟩
    · rw [hv, Nat.sub_eq_zero_of_le (by omega)]
      rfl
    · have hsub : cnt - ii = (cnt - (ii + 1)) + 1 := by omega
      rw [hv, hsub, List.range'_succ, List.map_cons, ih _ _ _ hns hrec]
    · have hsub : cnt - ii = (cnt - (ii + 1)) + 1 := by omega
      have hns2 : read32 data1 8 = some ns := by
        rw [patchModule_read32_outside hp (by omega), hns]
      rw [hv, hsub, List.range'_succ, List.map_cons, ih _ _ _ hns2 hrec]

/-- When the patched fields lie off the directory, the walk stores through the
`Rva` of every module-list entry of the directory from its counter on. -/
theorem fixupVisits_mem {fileSize ts : Nat} {hdr : IMAGE_OPTIONAL_HEADER} {dir ns cnt : Nat}
    {D : List Nat} (hns : read32 D 8 = some ns)
    (hcnt : ∀ ii : Nat, (ii : Int) < toInt32 ns ↔ ii < cnt)
    (hoff : ∀ i r, i < cnt → IsModuleListEntry D dir i r →
      r + 28 ≤ dir ∨ dir + 12 * cnt ≤ r + 12) :
    ∀ (fuel ii : Nat) (data d : List Nat), SameView dir cnt D data →
      fixupLoop fileSize ts hdr dir fuel ii data = some d →
      ∀ i r, ii ≤ i → i < cnt → IsModuleListEntry D dir i r →
        (i, some r) ∈ fixupVisits fileSize ts hdr dir fuel ii data := by
  intro fuel
  induction fuel with
  | zero => intro ii data d _ h; simp [fixupLoop] at h
  | succ fuel ih =>
    intro ii data d hv h i r hle hi he
    obtain ⟨ns1, hns1, hcase⟩ := fixupVisits_step h
    rw [hv.read_count, hns] at hns1
    injection hns1 with hns1
    subst hns1
    rw [hcnt] at hcase
    rcases hcase with ⟨hge, -, -⟩ | ⟨hii, ty, hty, ⟨hne, hrec, hvis⟩ |
      ⟨hmod, rva, data1, hrva, hp, hrec, hvis⟩⟩
    · omega
    · rw [hv.read_type hii] at hty
      rw [hvis]
      rcases Nat.eq_or_lt_of_le hle with rfl | hlt
      · rw [he.1] at hty
        injection hty with hty
        exact absurd hty.symm hne
      · exact List.mem_cons_of_mem _ (ih _ _ _ hv hrec i r hlt hi he)
    · rw [hv.read_type hii] at hty
      rw [hv.read_rva hii] at hrva
      subst hmod
      rw [hvis]
      rcases Nat.eq_or_lt_of_le hle with rfl | hlt
      · rw [he.2] at hrva
        injection hrva with hrva
        subst hrva
        exact List.mem_cons_self _ _
      · exact List.mem_cons_of_mem _
          (ih _ _ _ (hv.patch hp (hoff ii rva hii ⟨hty, hrva⟩)) hrec i r hlt hi he)

/-- A walk whose stores all begin at or behind byte 32 leaves the first 32
bytes of the buffer as they are. -/
theorem fixupLoop_header {fileSize ts : Nat} {hdr : IMAGE_OPTIONAL_HEADER} {dir : Nat} :
    ∀ (fuel ii : Nat) (data d : List Nat),
      fixupLoop fileSize ts hdr dir fuel ii data = some d →
      (∀ i r, (i, some r) ∈ fixupVisits fileSize ts hdr dir fuel ii data → 32 ≤ r + 12) →
      ∀ k, k < 32 → d[k]? = data[k]? := by
  intro fuel
  induction fuel with
  | zero => intro ii data d h; simp [fixupLoop] at h
  | succ fuel ih =>
    intro ii data d h hoff k hk
    obtain ⟨ns, -, hcase⟩ := fixupVisits_step h
    rcases hcase with ⟨-, rfl, -⟩ | ⟨-, ty, -, ⟨-, hrec, hvis⟩ | ⟨-, rva, data1, -, hp, hrec, hvis⟩⟩
    · rfl
    · rw [hvis] at hoff
      exact ih _ _ _ hrec (fun i r hm => hoff i r (List.mem_cons_of_mem _ hm)) k hk
    · rw [hvis] at hoff
      have h32 := hoff ii rva (List.mem_cons_self _ _)
      rw [ih _ _ _ hrec (fun i r hm => hoff i r (List.mem_cons_of_mem _ hm)) k hk,
        patchModule_getElem?_outside hp (by omega)]

/-- The trace of a run of `fixupDump`, from the steps of the run. -/
theorem fixupDumpVisits_eq {file data : List Nat} {dir : Nat} (ts : Nat)
    (hdr : IMAGE_OPTIONAL_HEADER) (hdata : write32 file 16 0 = some data)
    (hdir : read32 data 12 = some dir) :
    fixupDumpVisits file ts hdr = fixupVisits file.length ts hdr dir 2147483648 0 data := by
  simp only [fixupDumpVisits, hdata, hdir]

theorem sampleDump_visits : fixupDumpVisits sampleDump sampleTs sampleHdr = [(0, some 44)] := by
  decide

/-! ## The rewrite pass: the container checksum -/

/-- C14: on every dump on which the rewrite pass succeeds and none of whose
module-list stores `[Rva + 12, Rva + 28)` overlaps the 32-byte header, the
32-bit container checksum at offset 16 of the written file is zero, whatever
it was in the input. -/
theorem fixupDump_checksum_zero (fs : FileSys) (file : List Nat) (ts : Nat)
    (hdr : IMAGE_OPTIONAL_HEADER) (exe W : List Nat)
    (hrun : fixupDump fs file ts hdr exe = some (true, W))
    (hoff : ∀ i r, (i, some r) ∈ fixupDumpVisits file ts hdr → 32 ≤ r + 12) :
    read32 W 16 = some 0 := by
  obtain ⟨data, dir, data1, hdata, hdir, hloop, -, hW⟩ := fixupDump_written hrun
  rw [fixupDumpVisits_eq ts hdr hdata hdir] at hoff
  subst hW
  apply read32_append_left
  have h0 : read32 data 16 = some 0 := by
    have := read32_write32_same hdata
    simpa using this
  rw [← h0]
  exact read32_congr fun k _ _ => fixupLoop_header _ _ _ _ hloop hoff k (by omega)

/-- Witness of C14 on `sampleDump`, whose checksum is `0xDEADBEEF` and whose
one module-list store begins at byte 56. -/
theorem fixupDump_checksum_zero_witness :
    fixupDump sampleFs sampleDump sampleTs sampleHdr sampleExe = some (true, sampleWritten) ∧
    read32 sampleDump 16 = some 0xDEADBEEF ∧ read32 sampleWritten 16 = some 0 :=
  ⟨by decide, by decide,
    fixupDump_checksum_zero sampleFs sampleDump sampleTs sampleHdr sampleExe sampleWritten
      (by decide) (fun i r hm => by
        rw [sampleDump_visits] at hm
        simp only [List.mem_singleton, Prod.mk.injEq, Option.some.injEq] at hm
        omega)⟩

/-! ## The rewrite pass: how many entries it examines -/

/-- C17, as stated, fails: the header of `hugeCountDump` holds the stream count
`0x80000001`, and entry 0 of its directory is a module list at offset 44, in
the file.  Read as an `int` the count is negative: the walk examines no entry,
the pass succeeds, and the first module record is left unpatched (its checksum
still reads `0xAAAAAAAA`). -/
theorem fixupDump_huge_count_examines_none :
    read32 hugeCountDump 0 = some MINIDUMP_SIGNATURE ∧
    read32 hugeCountDump 8 = some 0x80000001 ∧ read32 hugeCountDump 12 = some 32 ∧
    IsModuleListEntry hugeCountDump 32 0 44 ∧ hugeCountDump.length = 72 ∧
    fixupDump sampleFs hugeCountDump sampleTs sampleHdr sampleExe =
      some (true, hugeCountWritten) ∧
    fixupDumpVisits hugeCountDump sampleTs sampleHdr = [] ∧
    read32 hugeCountWritten (44 + 16) = some 0xAAAAAAAA ∧
    read32 hugeCountWritten (44 + 16) ≠ some sampleHdr.CheckSum :=
  ⟨by decide, by decide, by decide, ⟨by decide, by decide⟩, by decide, by decide, by decide,
    by decide, by decide⟩

/-- C17 (amended): on every dump on which the rewrite pass succeeds, with
stream count `ns` in the header, the pass examines exactly the directory
entries `0 … c - 1`, one after the other, where `c` is `ns` read as an `int`:
`c = ns` when `ns < 2^31`, and `c = 0`, no entry examined, when
`2^31 ≤ ns < 2^32`.  When moreover the directory (if it has entries) lies
behind the 32-byte header and the patched fields of its module-list entries
lie off the directory, every module-list entry at an index below `c` is found
and the stores are made through its `Rva`; and when the patched fields of two
entries never overlap in part and `ns < 2^31`, each of these entries has its
first module record patched in the written file. -/
theorem fixupDump_examines (fs : FileSys) (file : List Nat) (ts : Nat)
    (hdr : IMAGE_OPTIONAL_HEADER) (exe W : List Nat) (ns dir : Nat)
    (hrun : fixupDump fs file ts hdr exe = some (true, W))
    (hns : read32 file 8 = some ns) (hdir : read32 file 12 = some dir) :
    (fixupDumpVisits file ts hdr).map Prod.fst = List.range (walkCount ns) ∧
    (ns < 2147483648 → walkCount ns = ns) ∧
    (2147483648 ≤ ns → ns < 4294967296 → walkCount ns = 0) ∧
    ((0 < ns → 32 ≤ dir) →
      (∀ i r, i < ns → IsModuleListEntry file dir i r →
        r + 28 ≤ dir ∨ dir + 12 * ns ≤ r + 12) →
      (∀ i r, i < walkCount ns → IsModuleListEntry file dir i r →
        (i, some r) ∈ fixupDumpVisits file ts hdr) ∧
      (ns < 2147483648 →
        (∀ i j r s, i < ns → j < ns → IsModuleListEntry file dir i r →
          IsModuleListEntry file dir j s → r = s ∨ r + 16 ≤ s ∨ s + 16 ≤ r) →
        ∀ i r, i < ns → IsModuleListEntry file dir i r →
          ModulePatched (hdr.SizeOfImage % 4294967296) (hdr.CheckSum % 4294967296)
            (ts % 4294967296) (file.length % 4294967296) r W)) := by
  obtain ⟨data, dir1, data1, hdata, hdir1, hloop, -, hW⟩ := fixupDump_written hrun
  have hdir2 := hdir1
  rw [read32_clear hdata (by omega), hdir] at hdir2
  injection hdir2 with hdir2
  subst hdir2
  have hns1 : read32 data 8 = some ns := by rw [read32_clear hdata (by omega), hns]
  have hle := walkCount_le ns
  refine ⟨?_, walkCount_of_lt, walkCount_of_ge, fun h32 hoff => ⟨?_, ?_⟩⟩
  · rw [fixupDumpVisits_eq ts hdr hdata hdir1,
      fixupVisits_indices (lt_toInt32_iff ns) _ _ _ _ hns1 hloop, Nat.sub_zero,
      List.range_eq_range']
  · intro i r hi he
    have hclear : ∀ {i r : Nat}, i < walkCount ns →
        (IsModuleListEntry data dir i r ↔ IsModuleListEntry file dir i r) :=
      fun hi => IsModuleListEntry.clear hdata (by have := h32 (by omega); omega)
    rw [fixupDumpVisits_eq ts hdr hdata hdir1]
    exact fixupVisits_mem hns1 (lt_toInt32_iff ns)
      (fun i r hi he => by
        rcases hoff i r (by omega) ((hclear hi).mp he) with h | h
        · exact Or.inl h
        · exact Or.inr (by omega))
      _ _ _ _ (SameView.refl dir (walkCount ns) data) hloop i r (Nat.zero_le _) hi
      ((hclear hi).mpr he)
  · intro hlt hpair i r hi he
    exact (fixupDump_modulePatched hrun hns hlt hdir (h32 (by omega)) hoff hpair hi he).2

/-- Witness of C17 (amended) on `sampleDump`, with stream count 1: the walk
examines entry 0 and stores through offset 44. -/
theorem fixupDump_examines_witness :
    fixupDump sampleFs sampleDump sampleTs sampleHdr sampleExe = some (true, sampleWritten) ∧
    (fixupDumpVisits sampleDump sampleTs sampleHdr).map Prod.fst = List.range (walkCount 1) ∧
    walkCount 1 = 1 ∧ (0, some 44) ∈ fixupDumpVisits sampleDump sampleTs sampleHdr :=
  have h := fixupDump_examines sampleFs sampleDump sampleTs sampleHdr sampleExe sampleWritten
    1 32 (by decide) (by decide) (by decide)
  ⟨by decide, h.1, h.2.1 (by decide),
    (h.2.2.2 (fun _ => by decide)
      (fun _ r hi he => by have := sampleDump_entry hi he; omega)).1 0 44 (by decide)
      ⟨by decide, by decide⟩⟩

/-! ## The header reader -/

theorem read32_take {l : List Nat} {n o : Nat} (h : o + 4 ≤ n) :
    read32 (l.take n) o = read32 l o :=
  read32_congr fun k _ _ => List.getElem?_take_of_lt (by omega)

theorem read16_take {l : List Nat} {n o : Nat} (h : o + 2 ≤ n) :
    read16 (l.take n) o = read16 l o := by
  unfold read16
  rw [List.getElem?_take_of_lt (by omega), List.getElem?_take_of_lt (by omega)]

theorem read16_drop (l : List Nat) (n o : Nat) : read16 (l.drop n) o = read16 l (n + o) := by
  unfold read16
  rw [List.getElem?_drop, List.getElem?_drop]
  rfl

theorem seekTarget_of_lt (failedSeekPos : Nat) {e_lfanew : Nat} (h : e_lfanew < 2147483648) :
    seekTarget failedSeekPos e_lfanew = e_lfanew := by
  unfold seekTarget
  rw [toInt32_of_lt h, if_pos (Int.ofNat_nonneg _)]
  exact Int.toNat_ofNat _

/-- The fields of the second header read at position `pos`, in terms of the
file. -/
theorem freadItem_nt_fields {file : List Nat} {pos optSize : Nat} {nt : List Nat}
    (h : freadItem file pos (24 + optSize) = some nt) :
    pos + (24 + optSize) ≤ file.length ∧
    nt.take 4 = (file.drop pos).take 4 ∧
    read16 nt 20 = read16 file (pos + 20) ∧
    read32 nt 8 = read32 file (pos + 8) ∧
    (nt.drop 24).take optSize = (file.drop (pos + 24)).take optSize := by
  unfold freadItem at h
  split at h
  · next hle =>
    injection h with h
    subst h
    refine ⟨hle, ?_, ?_, ?_, ?_⟩
    · rw [List.take_take, Nat.min_eq_left (by omega)]
    · rw [read16_take (by omega), read16_drop]
    · rw [read32_take (by omega), read32_drop]
    · rw [List.drop_take, List.drop_drop, List.take_take, Nat.add_sub_cancel_left,
        Nat.min_self]
  · exact absurd h (by simp)

/-- The fields of the first header, in terms of the file. -/
theorem freadItem_dos_fields {file dos : List Nat} (h : freadItem file 0 64 = some dos) :
    64 ≤ file.length ∧ read16 dos 0 = read16 file 0 ∧ read32 dos 60 = read32 file 60 := by
  unfold freadItem at h
  split at h
  · next hle =>
    injection h with h
    subst h
    refine ⟨by omega, ?_, ?_⟩
    · rw [read16_take (by omega), read16_drop]
    · rw [read32_take (by omega), read32_drop]
  · exact absurd h (by simp)

/-- The outputs are stored to only on the path that returns `true`. -/
theorem getExecutableChecksumAndSize_false (optSize : Nat) (canOpen : Bool)
    (failedSeekPos : Nat) (file : List Nat) (timeStamp0 : Nat) (header0 : List Nat)
    (h : (getExecutableChecksumAndSize optSize canOpen failedSeekPos file
      timeStamp0 header0).1 = false) :
    getExecutableChecksumAndSize optSize canOpen failedSeekPos file timeStamp0 header0 =
      (false, timeStamp0, header0) := by
  unfold getExecutableChecksumAndSize at h ⊢
  split
  · rfl
  · split
    · rfl
    · split
      · split
        · rfl
        · split
          · rfl
          · split
            · rfl
            · split
              · split
                · rfl
                · simp_all
              · rfl
      · rfl

/-- What a call that returns `true` has found in the file. -/
theorem getExecutableChecksumAndSize_true {optSize : Nat} {canOpen : Bool}
    {failedSeekPos : Nat} {file : List Nat} {timeStamp0 : Nat} {header0 : List Nat}
    (h : (getExecutableChecksumAndSize optSize canOpen failedSeekPos file
      timeStamp0 header0).1 = true) :
    canOpen = true ∧ 64 ≤ file.length ∧ read16 file 0 = some 0x5A4D ∧
    ∃ e_lfanew, read32 file 60 = some e_lfanew ∧
      seekTarget failedSeekPos e_lfanew + (24 + optSize) ≤ file.length ∧
      (file.drop (seekTarget failedSeekPos e_lfanew)).take 4 = [0x50, 0x45, 0, 0] ∧
      ∃ size, read16 file (seekTarget failedSeekPos e_lfanew + 20) = some size ∧
        optSize ≤ size := by
  unfold getExecutableChecksumAndSize at h
  split at h
  · simp at h
  · next hopen =>
    split at h
    · simp at h
    · next dos hdos =>
      obtain ⟨h64, hm, hl⟩ := freadItem_dos_fields hdos
      split at h
      · next e_magic e_lfanew hmagic hlfanew =>
        split at h
        · simp at h
        · next hmz =>
          split at h
          · simp at h
          · next nt hnt =>
            obtain ⟨hfull, hsig, hsz, -, -⟩ := freadItem_nt_fields hnt
            split at h
            · simp at h
            · next hpe =>
              split at h
              · next size tsv hsize htsv =>
                split at h
                · simp at h
                · next hge =>
                  rw [hm] at hmagic
                  rw [hl] at hlfanew
                  rw [hsz] at hsize
                  rw [hsig] at hpe
                  simp only [ne_eq, Decidable.not_not] at hmz hpe
                  subst hmz
                  exact ⟨by simpa using hopen, h64, hmagic, e_lfanew, hlfanew, hfull, hpe,
                    size, hsize, by omega⟩
              · simp at h
      · simp at h

/-- C15: for every image file that can be opened, whose bytes 0–1 are the magic
`0x5A4D`, whose `e_lfanew` (a non-negative `LONG`, read at byte 60 of the
prefix) is an offset at which the file holds a whole secondary header, which
begins with the signature `PE\0\0` and declares an optional-header size of at
least `sizeof(IMAGE_OPTIONAL_HEADER)`, the reader returns `true`, the 32-bit
timestamp stored at byte 8 of that header, and the bytes of the optional
header stored at its byte 24; hence the `SizeOfImage` and `CheckSum` passed on
are those stored at bytes 56 and 64 of the optional header in the file. -/
theorem getExecutableChecksumAndSize_valid (optSize : Nat) (canOpen : Bool)
    (failedSeekPos : Nat) (file : List Nat) (timeStamp0 : Nat) (header0 : List Nat)
    (e_lfanew size : Nat)
    (hopen : canOpen = true) (hmagic : read16 file 0 = some 0x5A4D)
    (hlfanew : read32 file 60 = some e_lfanew) (hpos : e_lfanew < 2147483648)
    (hfull : e_lfanew + (24 + optSize) ≤ file.length)
    (hsig : (file.drop e_lfanew).take 4 = [0x50, 0x45, 0, 0])
    (hsize : read16 file (e_lfanew + 20) = some size) (hge : optSize ≤ size) :
    ∃ timeDateStamp, read32 file (e_lfanew + 8) = some timeDateStamp ∧
      getExecutableChecksumAndSize optSize canOpen failedSeekPos file timeStamp0 header0 =
        (true, timeDateStamp, (file.drop (e_lfanew + 24)).take optSize) ∧
      ((file.drop (e_lfanew + 24)).take optSize).length = optSize ∧
      (68 ≤ optSize →
        read32 file (e_lfanew + 24 + 56) =
          some (optionalHeaderFields ((file.drop (e_lfanew + 24)).take optSize)).SizeOfImage ∧
        read32 file (e_lfanew + 24 + 64) =
          some (optionalHeaderFields ((file.drop (e_lfanew + 24)).take optSize)).CheckSum) := by
  have h64 := read32_bound hlfanew
  obtain ⟨tsv, htsv⟩ := read32_eq_some_of_le file (e_lfanew + 8) (by omega)
  have hdos : freadItem file 0 64 = some ((file.drop 0).take 64) := by
    simp only [freadItem, Nat.zero_add, h64, if_true]
  obtain ⟨-, hm, hl⟩ := freadItem_dos_fields hdos
  have hnt : freadItem file e_lfanew (24 + optSize) =
      some ((file.drop e_lfanew).take (24 + optSize)) := by
    simp only [freadItem, hfull, if_true]
  obtain ⟨-, hsig1, hsz1, hts1, hopt1⟩ := freadItem_nt_fields hnt
  refine ⟨tsv, htsv, ?_, ?_, ?_⟩
  · have hnlt : ¬ size < optSize := by omega
    unfold getExecutableChecksumAndSize
    simp only [hopen, hdos, hm, hl, hmagic, hlfanew, seekTarget_of_lt failedSeekPos hpos, hnt,
      hsig1, hsig, hsz1, hsize, hts1, htsv, hopt1, hnlt, ne_eq, not_true_eq_false, if_false,
      Bool.true_eq_false]
  · rw [List.length_take, List.length_drop]
    omega
  · intro h68
    obtain ⟨v1, hv1⟩ := read32_eq_some_of_le file (e_lfanew + 24 + 56) (by omega)
    obtain ⟨v2, hv2⟩ := read32_eq_some_of_le file (e_lfanew + 24 + 64) (by omega)
    have e1 : read32 ((file.drop (e_lfanew + 24)).take optSize) 56 = some v1 := by
      rw [read32_take (by omega), read32_drop, hv1]
    have e2 : read32 ((file.drop (e_lfanew + 24)).take optSize) 64 = some v2 := by
      rw [read32_take (by omega), read32_drop, hv2]
    simp only [optionalHeaderFields, e1, e2, Option.getD_some, hv1, hv2, and_self]

set_option maxRecDepth 8000 in
/-- Witness of C15 on `sampleImage`, read by a 32-bit build: the reader
returns the timestamp `0x99AABBCC` and an optional header whose two fields are
those of `sampleHdr`. -/
theorem getExecutableChecksumAndSize_valid_witness :
    ∃ timeDateStamp, read32 sampleImage (64 + 8) = some timeDateStamp ∧
      getExecutableChecksumAndSize 224 true 0 sampleImage 7 [1, 2, 3] =
        (true, timeDateStamp, (sampleImage.drop (64 + 24)).take 224) ∧
      ((sampleImage.drop (64 + 24)).take 224).length = 224 ∧
      (68 ≤ 224 →
        read32 sampleImage (64 + 24 + 56) =
          some (optionalHeaderFields ((sampleImage.drop (64 + 24)).take 224)).SizeOfImage ∧
        read32 sampleImage (64 + 24 + 64) =
          some (optionalHeaderFields ((sampleImage.drop (64 + 24)).take 224)).CheckSum) :=
  getExecutableChecksumAndSize_valid 224 true 0 sampleImage 7 [1, 2, 3] 64 224 rfl
    (by decide) (by decide) (by decide) (by decide) (by decide) (by decide) (by decide)

/-- C16: for every file that is truncated at either header read, lacks the
two-byte magic, lacks the 4-byte signature of the secondary header, or
declares an optional-header size below `sizeof(IMAGE_OPTIONAL_HEADER)` (and
for a file that cannot be opened), the reader returns `false` and both
outputs, timestamp and optional header, are what the caller passed. -/
theorem getExecutableChecksumAndSize_invalid (optSize : Nat) (canOpen : Bool)
    (failedSeekPos : Nat) (file : List Nat) (timeStamp0 : Nat) (header0 : List Nat)
    (hbad : canOpen = false ∨ file.length < 64 ∨ read16 file 0 ≠ some 0x5A4D ∨
      ∃ e_lfanew, read32 file 60 = some e_lfanew ∧
        (file.length < seekTarget failedSeekPos e_lfanew + (24 + optSize) ∨
         (file.drop (seekTarget failedSeekPos e_lfanew)).take 4 ≠ [0x50, 0x45, 0, 0] ∨
         ∃ size, read16 file (seekTarget failedSeekPos e_lfanew + 20) = some size ∧
           size < optSize)) :
    getExecutableChecksumAndSize optSize canOpen failedSeekPos file timeStamp0 header0 =
      (false, timeStamp0, header0) := by
  apply getExecutableChecksumAndSize_false
  cases hres : (getExecutableChecksumAndSize optSize canOpen failedSeekPos file
      timeStamp0 header0).1 with
  | false => rfl
  | true =>
    exfalso
    obtain ⟨hopen, h64, hmagic, e, he, hfull, hsig, size, hsize, hge⟩ :=
      getExecutableChecksumAndSize_true hres
    rcases hbad with h | h | h | ⟨e1, he1, h⟩
    · rw [hopen] at h
      exact absurd h (by simp)
    · omega
    · exact h hmagic
    · rw [he] at he1
      injection he1 with he1
      subst he1
      rcases h with h | h | ⟨size1, hsize1, h⟩
      · omega
      · exact h hsig
      · rw [hsize] at hsize1
        injection hsize1 with hsize1
        omega

/-- Witness of C16 on `sampleDump`, which starts with `MD`, not with the
magic. -/
theorem getExecutableChecksumAndSize_invalid_witness :
    read16 sampleDump 0 = some 0x444D ∧
    getExecutableChecksumAndSize 224 true 0 sampleDump 7 [1, 2, 3] = (false, 7, [1, 2, 3]) :=
  ⟨by decide, getExecutableChecksumAndSize_invalid 224 true 0 sampleDump 7 [1, 2, 3]
    (Or.inr (Or.inr (Or.inl (by decide))))⟩

end RemapPDB
